import Mathlib

/-!
# Verification development for `vinitngr/stuffs` (Go)

Shallow embedding of

* `Go/asynq/jobs/big_task.go`  (task construction, content-type probe, task handler),
* `Go/asynq/server/main.go`    (the `/big_task` HTTP handler),
* `Go/asynq/worker/main.go`    (the worker configuration),

together with the parts of the Go standard library the code calls
(`encoding/json` for a struct with one string field, `unicode/utf8`,
`strings.Split` with a one-byte separator, `errors.Is`).

Go strings are byte sequences, so a string is a list of bytes here.
Effects (HTTP round trips, the file system, the `ffmpeg` process, the queue
client) are read from an explicit `World` / oracle argument and recorded in a
trace, so that "nothing was probed / enqueued" is a statement about the trace.
-/

namespace Stuffs

/-! ## Go strings -/

/-- One byte of a Go string. -/
abbrev Byte := Fin 256

/-- A Go `string` / `[]byte`: an arbitrary byte sequence (not necessarily UTF-8). -/
abbrev GoString := List Byte

/-- Bytes of an ASCII literal of the source text. -/
def str (s : String) : GoString := s.toList.map (fun c => Fin.ofNat c.toNat)

/-! ## Go errors and `errors.Is` -/

/-- Go `error` values as far as `errors.Is` can tell them apart.
`sentinel` is a package-level error variable (compared by identity, here by
name), `fresh` an error allocated at the call (`errors.New`, `fmt.Errorf`
without `%w`): it is identical to no sentinel. `wrap` is `fmt.Errorf` with one
`%w` verb. -/
inductive GoError where
  | sentinel (name : String) (msg : GoString)
  | fresh (msg : GoString)
  | wrap (msg : GoString) (inner : GoError)
  deriving DecidableEq, Repr

/-- The method `Error()`. -/
def GoError.message : GoError → GoString
  | .sentinel _ msg => msg
  | .fresh msg => msg
  | .wrap msg _ => msg

/-- Identity comparison `err == target` for a sentinel target. -/
def GoError.same : GoError → GoError → Bool
  | .sentinel n _, .sentinel m _ => n == m
  | _, _ => false

/-- The function `errors.Is(err, target)`: identity, or recursively through `Unwrap`. -/
def errorsIs : GoError → GoError → Bool
  | .wrap msg inner, target => GoError.same (.wrap msg inner) target || errorsIs inner target
  | e, target => GoError.same e target

/-- The sentinel `asynq.SkipRetry = errors.New("skip retry for the task")`. -/
def SkipRetry : GoError := .sentinel "asynq.SkipRetry" (str "skip retry for the task")

/-- `fmt.Errorf(prefix + "%w", err)`: the message is the prefix followed by the
message of the wrapped error. -/
def errorfW (pre : GoString) (err : GoError) : GoError := .wrap (pre ++ err.message) err

/-! ## `unicode/utf8` -/

/-- The rune `utf8.RuneError` (U+FFFD). -/
def RuneError : Nat := 0xFFFD

/-- Entry of the table `first` of `unicode/utf8` for a lead byte `>= 0x80`:
the sequence length and the accepted range of the second byte, `none` for an
invalid lead byte. -/
def firstInfo (s0 : Nat) : Option (Nat × Nat × Nat) :=
  if s0 < 0xC2 then none
  else if s0 ≤ 0xDF then some (2, 0x80, 0xBF)
  else if s0 = 0xE0 then some (3, 0xA0, 0xBF)
  else if s0 ≤ 0xEC then some (3, 0x80, 0xBF)
  else if s0 = 0xED then some (3, 0x80, 0x9F)
  else if s0 ≤ 0xEF then some (3, 0x80, 0xBF)
  else if s0 = 0xF0 then some (4, 0x90, 0xBF)
  else if s0 ≤ 0xF3 then some (4, 0x80, 0xBF)
  else if s0 = 0xF4 then some (4, 0x80, 0x8F)
  else none

/-- Continuation byte range `locb..hicb`. -/
def isCont (b : Nat) : Bool := 0x80 ≤ b && b ≤ 0xBF

/-- The function `utf8.DecodeRune` / `utf8.DecodeRuneInString`: the rune and the
number of bytes it occupies; `(RuneError, 1)` for an invalid encoding,
`(RuneError, 0)` for the empty string.  The masks `s0 & mask2`, `& maskx` are
written `% 32`, `% 64`, the shifts as multiplications. -/
def decodeRune (s : GoString) : Nat × Nat :=
  match s with
  | [] => (RuneError, 0)
  | s0 :: t =>
    if s0.val < 0x80 then (s0.val, 1)
    else
      match firstInfo s0.val with
      | none => (RuneError, 1)
      | some (sz, lo, hi) =>
        if s.length < sz then (RuneError, 1)
        else
          match t with
          | [] => (RuneError, 1)
          | s1 :: t1 =>
            if s1.val < lo ∨ hi < s1.val then (RuneError, 1)
            else if sz ≤ 2 then ((s0.val % 32) * 64 + s1.val % 64, 2)
            else
              match t1 with
              | [] => (RuneError, 1)
              | s2 :: t2 =>
                if !isCont s2.val then (RuneError, 1)
                else if sz ≤ 3 then
                  ((s0.val % 16) * 4096 + (s1.val % 64) * 64 + s2.val % 64, 3)
                else
                  match t2 with
                  | [] => (RuneError, 1)
                  | s3 :: _ =>
                    if !isCont s3.val then (RuneError, 1)
                    else ((s0.val % 8) * 262144 + (s1.val % 64) * 4096
                            + (s2.val % 64) * 64 + s3.val % 64, 4)

/-- Three-byte encoding of a rune below `0x10000`. -/
def encode3 (r : Nat) : GoString :=
  [Fin.ofNat (0xE0 + r / 4096), Fin.ofNat (0x80 + r / 64 % 64), Fin.ofNat (0x80 + r % 64)]

/-- The function `utf8.EncodeRune` / `utf8.AppendRune`: surrogates and values above
`utf8.MaxRune` are encoded as `RuneError`. -/
def encodeRune (r : Nat) : GoString :=
  if r ≤ 0x7F then [Fin.ofNat r]
  else if r ≤ 0x7FF then [Fin.ofNat (0xC0 + r / 64), Fin.ofNat (0x80 + r % 64)]
  else if 0x10FFFF < r ∨ (0xD800 ≤ r ∧ r ≤ 0xDFFF) then encode3 RuneError
  else if r ≤ 0xFFFF then encode3 r
  else [Fin.ofNat (0xF0 + r / 262144), Fin.ofNat (0x80 + r / 4096 % 64),
        Fin.ofNat (0x80 + r / 64 % 64), Fin.ofNat (0x80 + r % 64)]

/-- A string is valid UTF-8 (`utf8.ValidString`): no position decodes to
`(RuneError, 1)`.  The fuel bounds the number of runes. -/
def validUTF8Aux : Nat → GoString → Bool
  | _, [] => true
  | 0, _ :: _ => false
  | fuel + 1, c :: t =>
    let d := decodeRune (c :: t)
    if d.1 = RuneError ∧ d.2 = 1 then false
    else validUTF8Aux fuel ((c :: t).drop d.2)

/-- The function `utf8.ValidString`. -/
def validUTF8 (s : GoString) : Bool := validUTF8Aux s.length s

/-- A string with every byte that is not part of a valid UTF-8 sequence replaced
by the encoding of U+FFFD (valid sequences are kept). -/
def coerceUTF8Aux : Nat → GoString → GoString
  | _, [] => []
  | 0, _ :: _ => []
  | fuel + 1, c :: t =>
    let d := decodeRune (c :: t)
    if d.1 = RuneError ∧ d.2 = 1 then encodeRune RuneError ++ coerceUTF8Aux fuel t
    else (c :: t).take d.2 ++ coerceUTF8Aux fuel ((c :: t).drop d.2)

/-- Coercion of a string to valid UTF-8, byte by byte. -/
def coerceUTF8 (s : GoString) : GoString := coerceUTF8Aux s.length s

/-! ## `encoding/json`: encoding a string -/

/-- The digits `hex = "0123456789abcdef"` of `encoding/json`. -/
def hexDigit (n : Nat) : Byte :=
  if n < 10 then Fin.ofNat (0x30 + n) else Fin.ofNat (0x61 + (n - 10))

/-- The table `htmlSafeSet`: ASCII bytes that `json.Marshal` copies unescaped. -/
def htmlSafe (b : Nat) : Bool :=
  0x20 ≤ b && b < 0x80 && b != 0x22 && b != 0x26 && b != 0x3C && b != 0x3E && b != 0x5C

/-- Escape sequence `appendString` writes for an ASCII byte outside `htmlSafeSet`
(older releases write backspace and form feed as `\u0008` and `\u000c`, which
decode to the same bytes). -/
def escapeASCII (b : Byte) : GoString :=
  if b.val = 0x5C ∨ b.val = 0x22 then [0x5C, b]
  else if b.val = 0x08 then str "\\b"
  else if b.val = 0x0C then str "\\f"
  else if b.val = 0x0A then str "\\n"
  else if b.val = 0x0D then str "\\r"
  else if b.val = 0x09 then str "\\t"
  else str "\\u00" ++ [hexDigit (b.val / 16), hexDigit (b.val % 16)]

/-- One iteration of the loop of `appendString(dst, src, escapeHTML = true)` of
`encoding/json` at the byte `b` followed by `t`: the bytes appended and the
number of input bytes consumed.  Safe ASCII is copied, other ASCII escaped, an
invalid UTF-8 byte becomes the six-byte escape of U+FFFD, U+2028 and U+2029
are escaped, any other rune is copied. -/
def appendStep (b : Byte) (t : GoString) : GoString × Nat :=
  if b.val < 0x80 then
    (if htmlSafe b.val then [b] else escapeASCII b, 1)
  else
    let d := decodeRune (b :: t)
    if d.1 = RuneError ∧ d.2 = 1 then (str "\\ufffd", 1)
    else if d.1 = 0x2028 ∨ d.1 = 0x2029 then (str "\\u202" ++ [hexDigit (d.1 % 16)], d.2)
    else ((b :: t).take d.2, d.2)

/-- Body of `appendString`, without the surrounding quotes.  Every iteration
consumes at least one byte, so fuel `src.length` suffices. -/
def appendStringBody : Nat → GoString → GoString
  | _, [] => []
  | 0, _ :: _ => []
  | fuel + 1, b :: t =>
    (appendStep b t).1 ++ appendStringBody fuel ((b :: t).drop (appendStep b t).2)

/-- The function `appendString` with its quotes: the JSON text of a Go string. -/
def appendString (src : GoString) : GoString :=
  [0x22] ++ appendStringBody src.length src ++ [0x22]

/-! ## `encoding/json`: the scanner -/

/-- The function `isSpace` of the scanner: space, tab, carriage return, newline. -/
def isSpace (c : Byte) : Bool := c.val = 0x20 || c.val = 0x09 || c.val = 0x0D || c.val = 0x0A

/-- Skip JSON white space. -/
def skipSpace : GoString → GoString
  | [] => []
  | c :: t => if isSpace c then skipSpace t else c :: t

/-- Value of a hexadecimal digit (`0-9`, `a-f`, `A-F`). -/
def hexVal (c : Byte) : Option Nat :=
  if 0x30 ≤ c.val ∧ c.val ≤ 0x39 then some (c.val - 0x30)
  else if 0x61 ≤ c.val ∧ c.val ≤ 0x66 then some (c.val - 0x61 + 10)
  else if 0x41 ≤ c.val ∧ c.val ≤ 0x46 then some (c.val - 0x41 + 10)
  else none

/-- Characters that may follow a backslash besides `u`: `b f n r t \ / "`. -/
def isSimpleEscape (e : Byte) : Bool :=
  e.val = 0x62 || e.val = 0x66 || e.val = 0x6E || e.val = 0x72 || e.val = 0x74
    || e.val = 0x5C || e.val = 0x2F || e.val = 0x22

/-- Scanner states `stateInString`, `stateInStringEsc`, `stateInStringEscU..`: the
input starts after the opening quote; the result is the raw text up to the
closing quote and the input after it.  Control characters, an unknown escape
and an unterminated string are syntax errors (`none`). -/
def scanString : GoString → Option (GoString × GoString)
  | [] => none
  | c :: t =>
    if c.val = 0x22 then some ([], t)
    else if c.val = 0x5C then
      match t with
      | [] => none
      | e :: t1 =>
        if isSimpleEscape e then
          (scanString t1).map (fun r => (c :: e :: r.1, r.2))
        else if e.val = 0x75 then
          match t1 with
          | h1 :: h2 :: h3 :: h4 :: t2 =>
            if (hexVal h1).isSome ∧ (hexVal h2).isSome ∧ (hexVal h3).isSome ∧ (hexVal h4).isSome then
              (scanString t2).map (fun r => (c :: e :: h1 :: h2 :: h3 :: h4 :: r.1, r.2))
            else none
          | _ => none
        else none
    else if c.val < 0x20 then none
    else (scanString t).map (fun r => (c :: r.1, r.2))

/-- ASCII digit. -/
def isDigit (c : Byte) : Bool := 0x30 ≤ c.val && c.val ≤ 0x39

/-- Skip a run of digits. -/
def skipDigits : GoString → GoString
  | [] => []
  | c :: t => if isDigit c then skipDigits t else c :: t

/-- At least one digit, then any number of digits. -/
def scanDigits1 : GoString → Option GoString
  | c :: t => if isDigit c then some (skipDigits t) else none
  | [] => none

/-- Exponent part of a number (states `stateE`, `stateESign`, `stateE0`), if present. -/
def scanExp : GoString → Option GoString
  | c :: t =>
    if c.val = 0x65 ∨ c.val = 0x45 then
      match t with
      | d :: t1 => if d.val = 0x2B ∨ d.val = 0x2D then scanDigits1 t1 else scanDigits1 (d :: t1)
      | [] => none
    else some (c :: t)
  | [] => some []

/-- Fraction part (states `stateDot`, `stateDot0`), if present, then the exponent. -/
def scanFrac : GoString → Option GoString
  | c :: t => if c.val = 0x2E then (scanDigits1 t).bind scanExp else scanExp (c :: t)
  | [] => some []

/-- Integer part after an optional minus sign (states `state0`, `state1`). -/
def scanInt : GoString → Option GoString
  | c :: t =>
    if c.val = 0x30 then scanFrac t
    else if 0x31 ≤ c.val ∧ c.val ≤ 0x39 then scanFrac (skipDigits t)
    else none
  | [] => none

/-- A JSON number (state `stateNeg` onwards): the input after it. -/
def scanNumber : GoString → Option GoString
  | c :: t => if c.val = 0x2D then scanInt t else scanInt (c :: t)
  | [] => none

/-- The rest of a literal `true`, `false`, `null` after its first letter. -/
def scanWord (word : GoString) (s : GoString) : Option GoString :=
  if word.isPrefixOf s then some (s.drop word.length) else none

/-- Kind of a JSON value. -/
inductive Kind where
  | null | bool | number | string | array | object
  deriving DecidableEq, Repr

/-- A scanned value as far as decoding into `VideoPayload` looks at it: its kind
and, for a string, the raw text between the quotes. -/
structure Item where
  kind : Kind
  lit : GoString
  deriving DecidableEq, Repr

/-- A scanned value with the members of an object (raw key text and value). -/
structure Value where
  kind : Kind
  lit : GoString
  members : List (GoString × Item)
  deriving DecidableEq, Repr

/-- The constant `maxNestingDepth` of the scanner. -/
def maxNestingDepth : Nat := 10000

mutual
/-- One JSON value with leading white space (`stateBeginValue`): the value and the
input after it.  `depth` is the number of open arrays and objects. -/
def scanValue : Nat → Nat → GoString → Option (Value × GoString)
  | 0, _, _ => none
  | fuel + 1, depth, s =>
    match skipSpace s with
    | [] => none
    | c :: t =>
      if c.val = 0x7B then
        if maxNestingDepth ≤ depth then none
        else
          match skipSpace t with
          | [] => none
          | d :: t1 =>
            if d.val = 0x7D then some (⟨.object, [], []⟩, t1)
            else (scanMembers fuel (depth + 1) (d :: t1)).map
                   (fun r => (⟨.object, [], r.1⟩, r.2))
      else if c.val = 0x5B then
        if maxNestingDepth ≤ depth then none
        else
          match skipSpace t with
          | [] => none
          | d :: t1 =>
            if d.val = 0x5D then some (⟨.array, [], []⟩, t1)
            else (scanElements fuel (depth + 1) (d :: t1)).map
                   (fun r => (⟨.array, [], []⟩, r))
      else if c.val = 0x22 then
        (scanString t).map (fun r => (⟨.string, r.1, []⟩, r.2))
      else if c.val = 0x2D ∨ isDigit c then
        (scanNumber (c :: t)).map (fun r => (⟨.number, [], []⟩, r))
      else if c.val = 0x74 then (scanWord (str "rue") t).map (fun r => (⟨.bool, [], []⟩, r))
      else if c.val = 0x66 then (scanWord (str "alse") t).map (fun r => (⟨.bool, [], []⟩, r))
      else if c.val = 0x6E then (scanWord (str "ull") t).map (fun r => (⟨.null, [], []⟩, r))
      else none
/-- The elements of a non-empty array up to and including the closing bracket. -/
def scanElements : Nat → Nat → GoString → Option GoString
  | 0, _, _ => none
  | fuel + 1, depth, s =>
    match scanValue fuel depth s with
    | none => none
    | some (_, rest) =>
      match skipSpace rest with
      | [] => none
      | c :: t =>
        if c.val = 0x2C then scanElements fuel depth t
        else if c.val = 0x5D then some t
        else none
/-- The members of a non-empty object up to and including the closing brace; the
input starts at the first key (white space skipped for the first key by the
caller, here for the following ones). -/
def scanMembers : Nat → Nat → GoString → Option (List (GoString × Item) × GoString)
  | 0, _, _ => none
  | fuel + 1, depth, s =>
    match skipSpace s with
    | [] => none
    | q :: t =>
      if q.val = 0x22 then
        match scanString t with
        | none => none
        | some (key, afterKey) =>
          match skipSpace afterKey with
          | [] => none
          | colon :: t1 =>
            if colon.val = 0x3A then
              match scanValue fuel depth t1 with
              | none => none
              | some (v, rest) =>
                match skipSpace rest with
                | [] => none
                | c :: t2 =>
                  if c.val = 0x2C then
                    (scanMembers fuel depth t2).map (fun r => ((key, ⟨v.kind, v.lit⟩) :: r.1, r.2))
                  else if c.val = 0x7D then some ([(key, ⟨v.kind, v.lit⟩)], t2)
                  else none
            else none
      else none
end

/-- The function `checkValid` followed by the scan of the top-level value: the whole
input is one JSON value surrounded by white space. -/
def scanDocument (data : GoString) : Option Value :=
  match scanValue (data.length + 1) 0 data with
  | none => none
  | some (v, rest) => if skipSpace rest = [] then some v else none

/-! ## `encoding/json`: decoding a string literal -/

/-- The function `getu4`: the rune of a leading `\uXXXX`, `none` for `-1`. -/
def getu4 : GoString → Option Nat
  | b :: u :: h1 :: h2 :: h3 :: h4 :: _ =>
    if b.val = 0x5C ∧ u.val = 0x75 then
      match hexVal h1, hexVal h2, hexVal h3, hexVal h4 with
      | some a, some b, some c, some d => some (a * 4096 + b * 256 + c * 16 + d)
      | _, _, _, _ => none
    else none
  | _ => none

/-- The function `utf16.DecodeRune(r1, r2)`, with `none` for a second argument `-1`:
the code point of a surrogate pair, U+FFFD otherwise. -/
def utf16DecodeRune (r1 : Nat) (r2 : Option Nat) : Nat :=
  match r2 with
  | some r2 =>
    if 0xD800 ≤ r1 ∧ r1 < 0xDC00 ∧ 0xDC00 ≤ r2 ∧ r2 < 0xE000 then
      (r1 - 0xD800) * 1024 + (r2 - 0xDC00) + 0x10000
    else 0xFFFD
  | none => 0xFFFD

/-- One iteration of the slow path of `unquoteBytes` at the byte `c` followed by
`t`: the decoded bytes and the number of input bytes consumed, `none` when the
text is rejected.  Escapes are resolved, `\uXXXX` surrogate pairs combined,
invalid UTF-8 coerced to U+FFFD. -/
def unquoteStep (c : Byte) (t : GoString) : Option (GoString × Nat) :=
  if c.val = 0x5C then
    match t with
    | [] => none
    | e :: t1 =>
      if e.val = 0x22 ∨ e.val = 0x5C ∨ e.val = 0x2F ∨ e.val = 0x27 then some ([e], 2)
      else if e.val = 0x62 then some ([0x08], 2)
      else if e.val = 0x66 then some ([0x0C], 2)
      else if e.val = 0x6E then some ([0x0A], 2)
      else if e.val = 0x72 then some ([0x0D], 2)
      else if e.val = 0x74 then some ([0x09], 2)
      else if e.val = 0x75 then
        match getu4 (c :: t) with
        | none => none
        | some rr =>
          if 0xD800 ≤ rr ∧ rr < 0xE000 then
            if utf16DecodeRune rr (getu4 (t1.drop 4)) ≠ 0xFFFD then
              some (encodeRune (utf16DecodeRune rr (getu4 (t1.drop 4))), 12)
            else some (encodeRune 0xFFFD, 6)
          else some (encodeRune rr, 6)
      else none
  else if c.val = 0x22 ∨ c.val < 0x20 then none
  else if c.val < 0x80 then some ([c], 1)
  else some (encodeRune (decodeRune (c :: t)).1, (decodeRune (c :: t)).2)

/-- The slow path of `unquoteBytes` on the text between the quotes (its fast path
returns the text unchanged when it has no escape, quote, control character or
invalid UTF-8, which is what the slow path computes on such a text).  Every
iteration consumes at least one byte, so fuel `s.length` suffices. -/
def unquoteBody : Nat → GoString → Option GoString
  | _, [] => some []
  | 0, _ :: _ => none
  | fuel + 1, c :: t =>
    match unquoteStep c t with
    | none => none
    | some (out, n) => (unquoteBody fuel ((c :: t).drop n)).map (out ++ ·)

/-- The function `unquoteBytes` applied to the text between the quotes. -/
def unquote (s : GoString) : Option GoString := unquoteBody s.length s

/-! ## `encoding/json` for `VideoPayload` -/

/-- The struct `VideoPayload` with its single field, JSON name `video_url`. -/
structure VideoPayload where
  VideoURL : GoString
  deriving DecidableEq, Repr

/-- The call `json.Marshal(VideoPayload{...})`: an object with the one member
`video_url`, its value written by `appendString`.  Encoding a string cannot
fail, so the error result is always nil. -/
def jsonMarshal (p : VideoPayload) : Except GoError GoString :=
  .ok ([0x7B] ++ str "\"video_url\":" ++ appendString p.VideoURL ++ [0x7D])

/-- ASCII part of `foldName`: lower-case letters become upper-case. -/
def foldASCII (key : GoString) : GoString :=
  key.map (fun c => if 0x61 ≤ c.val ∧ c.val ≤ 0x7A then Fin.ofNat (c.val - 0x20) else c)

/-- Field lookup of the decoder for the one field `video_url`: the exact name, or
equal under case folding.  A key with a byte `>= 0x80` folds to a text that
still has non-ASCII bytes or one of the letters `K`, `S`, so it cannot fold to
`VIDEO_URL`; folding of such bytes is therefore left as the identity. -/
def matchesField (key : GoString) : Bool :=
  key = str "video_url" || foldASCII key = str "VIDEO_URL"

/-- The error `*json.SyntaxError` (its text is not modelled). -/
def jsonSyntaxError : GoError := .fresh (str "json: syntax error")

/-- The error `*json.UnmarshalTypeError` (its text is not modelled). -/
def jsonTypeError : GoError := .fresh (str "json: cannot unmarshal value into Go value")

/-- The decoder on one member of the top-level object (`decodeState.object` and
`literalStore` for a field of kind string): an unknown key is skipped, a
string is stored, `null` leaves the field, any other kind records an
`UnmarshalTypeError` (`saveError` keeps the first one) and decoding goes on. -/
def storeMember (st : VideoPayload × Option GoError) (m : GoString × Item) :
    VideoPayload × Option GoError :=
  match unquote m.1 with
  | none => (st.1, st.2.orElse (fun _ => some jsonSyntaxError))
  | some key =>
    if matchesField key then
      match m.2.kind with
      | .string =>
        match unquote m.2.lit with
        | some v => (⟨v⟩, st.2)
        | none => (st.1, st.2.orElse (fun _ => some jsonSyntaxError))
      | .null => st
      | _ => (st.1, st.2.orElse (fun _ => some jsonTypeError))
    else st

/-- The call `json.Unmarshal(data, &p)` for `p` of type `VideoPayload`: the value of
`p` afterwards and the error.  Invalid JSON is a syntax error and leaves `p`;
an object is decoded member by member; `null` is accepted and leaves `p`; any
other top-level value is a type error. -/
def jsonUnmarshal (data : GoString) (p : VideoPayload) : VideoPayload × Option GoError :=
  match scanDocument data with
  | none => (p, some jsonSyntaxError)
  | some v =>
    match v.kind with
    | .object => v.members.foldl storeMember (p, none)
    | .null => (p, none)
    | _ => (p, some jsonTypeError)

/-! ## `strings.Split` and header lookup -/

/-- The call `strings.Split(s, sep)` for a separator of one byte (the source only
splits on `";"`): the pieces between the separators, in order; never empty. -/
def splitByte (sep : Byte) : GoString → List GoString
  | [] => [[]]
  | c :: t =>
    if c = sep then [] :: splitByte sep t
    else
      match splitByte sep t with
      | [] => [[c]]
      | h :: r => (c :: h) :: r

/-- A map from strings to string lists (`http.Header`, `url.Values`). -/
abbrev Values := List (GoString × List GoString)

/-- The method `Get` of `http.Header` and of `url.Values` for a key in canonical
form: the first value stored under the key, the empty string if there is none. -/
def Values.Get (v : Values) (key : GoString) : GoString :=
  match v.lookup key with
  | some (x :: _) => x
  | _ => []

/-! ## Package `jobs` (`Go/asynq/jobs/big_task.go`) -/

/-- The constant `TypeVideoCompressor`. -/
def TypeVideoCompressor : GoString := str "video:compress"

/-- The options of `asynq` the source uses, and the queue option it does not use. -/
inductive TaskOption where
  | retry (n : Int)
  | timeout (nanoseconds : Int)
  | queue (name : GoString)
  deriving DecidableEq, Repr

/-- The option `asynq.MaxRetry(n)`: a negative count is taken as zero. -/
def MaxRetry (n : Int) : TaskOption := .retry (if n < 0 then 0 else n)

/-- The option `asynq.Timeout(d)`, the duration in nanoseconds. -/
def Timeout (d : Int) : TaskOption := .timeout d

/-- The constant `time.Second` in nanoseconds. -/
def Second : Int := 1000000000

/-- The type `asynq.Task`: type name, payload and options. -/
structure Task where
  typename : GoString
  payload : GoString
  opts : List TaskOption
  deriving DecidableEq, Repr

/-- The constructor `asynq.NewTask`. -/
def NewTask (typename payload : GoString) (opts : List TaskOption) : Task :=
  ⟨typename, payload, opts⟩

/-- The function `NewVideoCompressionTask`. -/
def NewVideoCompressionTask (src : GoString) : Except GoError Task :=
  match jsonMarshal ⟨src⟩ with
  | .error err => .error err
  | .ok payload =>
    .ok (NewTask TypeVideoCompressor payload [MaxRetry 2, Timeout (20 * Second)])

/-- The retry count a task asks for: its last `MaxRetry` option, if any. -/
def Task.maxRetry (t : Task) : Option Int :=
  t.opts.foldl (fun acc o => match o with | .retry n => some n | _ => acc) none

/-- The per-attempt timeout a task asks for: its last `Timeout` option, if any. -/
def Task.timeout (t : Task) : Option Int :=
  t.opts.foldl (fun acc o => match o with | .timeout d => some d | _ => acc) none

/-- The queue a task names explicitly: its last `Queue` option, if any. -/
def Task.queueOption (t : Task) : Option GoString :=
  t.opts.foldl (fun acc o => match o with | .queue q => some q | _ => acc) none

/-- Modelled from the spec: the option resolution of the queue client is not in the
sources; the data model says `queue` is the "name of the target queue (default
if unspecified)" and the producer contract that options default to
`queue: "default"`. -/
def Task.queue (t : Task) : GoString := (t.queueOption).getD (str "default")

/-- The table `allowedVideoTypes`. -/
def allowedVideoTypes : List (GoString × GoString) :=
  [ (str "video/mp4", str ".mp4"),
    (str "video/quicktime", str ".mov"),
    (str "video/webm", str ".webm"),
    (str "video/x-matroska", str ".mkv"),
    (str "video/x-msvideo", str ".avi") ]

/-- The part of an `http.Response` the source reads. -/
structure HttpResponse where
  StatusCode : Int
  Status : GoString
  Header : Values
  deriving DecidableEq, Repr

/-- Everything the handler reads from outside the program. -/
structure World where
  /-- Result of `os.Getwd()`. -/
  getwd : Except GoError GoString
  /-- Error of `http.NewRequest(method, url, nil)` for the methods `HEAD` and `GET`:
  it depends on the URL only (the URL does not parse). -/
  newRequestErr : GoString → Option GoError
  /-- Result of `http.DefaultClient.Do` for a method and URL. -/
  doRequest : GoString → GoString → Except GoError HttpResponse
  /-- Error of `os.Create(path)`. -/
  create : GoString → Option GoError
  /-- Error of `io.Copy` of the response body into the file at a path. -/
  copy : GoString → Option GoError
  /-- Error of running a command line (`exec.Command(...).Run()`). -/
  run : List GoString → Option GoError
  /-- The text `time.Now().Format("20060102150405")`. -/
  now : GoString
  /-- The function `filepath.Join`. -/
  join : List GoString → GoString

/-- Observable actions of the handler, in order. -/
inductive Effect where
  | log (msg : GoString)
  | getwd
  | httpDo (method url : GoString)
  | create (path : GoString)
  | copy (path : GoString)
  | run (args : List GoString)
  deriving DecidableEq, Repr

/-- How a Go function ends: it returns, or it panics at run time. -/
inductive Res (α : Type) where
  | ret (a : α)
  | panic (msg : String)
  deriving DecidableEq, Repr

/-- The function `ProbeContentType`: the trace, and the pair `(string, error)` it
returns.  Indexing the result of `strings.Split` with `[0]` panics when the
slice is empty. -/
def ProbeContentType (w : World) (url : GoString) :
    List Effect × Res (GoString × Option GoError) :=
  match w.newRequestErr url with
  | some err => ([], .ret ([], some err))
  | none =>
    match w.doRequest (str "HEAD") url with
    | .error err => ([.httpDo (str "HEAD") url], .ret ([], some err))
    | .ok resp =>
      let ct := resp.Header.Get (str "Content-Type")
      if ct = [] then
        ([.httpDo (str "HEAD") url], .ret ([], some (.fresh (str "missing Content-Type"))))
      else
        match (splitByte 0x3B ct)[0]? with
        | some s => ([.httpDo (str "HEAD") url], .ret (s, none))
        | none => ([.httpDo (str "HEAD") url], .panic "index out of range [0] with length 0")

/-- The function `Download`.  The error of `http.NewRequest` is discarded, so a URL
that does not parse leaves `req` nil and `req.Header.Set` panics. -/
def Download (w : World) (url out : GoString) : List Effect × Res (Option GoError) :=
  match w.newRequestErr url with
  | some _ => ([], .panic "invalid memory address or nil pointer dereference")
  | none =>
    match w.doRequest (str "GET") url with
    | .error err => ([.httpDo (str "GET") url], .ret (some err))
    | .ok resp =>
      if resp.StatusCode ≠ 200 then
        ([.httpDo (str "GET") url], .ret (some (.fresh (str "bad status: " ++ resp.Status))))
      else
        match w.create out with
        | some err => ([.httpDo (str "GET") url, .create out], .ret (some err))
        | none => ([.httpDo (str "GET") url, .create out, .copy out], .ret (w.copy out))

/-- The command line of `CompressVideo`. -/
def ffmpegArgs (input output : GoString) : List GoString :=
  [str "ffmpeg", str "-y", str "-i", input, str "-vf", str "scale=640:-2",
   str "-c:v", str "libx264", str "-preset", str "veryfast", str "-crf", str "35",
   str "-b:v", str "300k", str "-c:a", str "aac", str "-b:a", str "64k", output]

/-- The function `CompressVideo`. -/
def CompressVideo (w : World) (input output : GoString) : List Effect × Option GoError :=
  ([.run (ffmpegArgs input output)], w.run (ffmpegArgs input output))

/-- The function `HandleVideoCompressionTask`: the trace and the returned error
(`none` is nil). -/
def HandleVideoCompressionTask (w : World) (t : Task) : List Effect × Res (Option GoError) :=
  match jsonUnmarshal t.payload ⟨[]⟩ with
  | (_, some err) =>
    ([], .ret (some (.wrap (str "json.Unmarshal failed: " ++ err.message ++ str ": "
                              ++ SkipRetry.message) SkipRetry)))
  | (p, none) =>
    let tr1 : List Effect := [.log (str "process started for video : " ++ p.VideoURL), .getwd]
    match w.getwd with
    | .error err => (tr1, .ret (some (errorfW (str "failed to get working directory: ") err)))
    | .ok cwd =>
      match ProbeContentType w p.VideoURL with
      | (trP, .panic msg) => (tr1 ++ trP, .panic msg)
      | (trP, .ret (_, some err)) => (tr1 ++ trP, .ret (some err))
      | (trP, .ret (ctype, none)) =>
        match allowedVideoTypes.lookup ctype with
        | none =>
          (tr1 ++ trP, .ret (some (.fresh (str "unsupported content-type: " ++ ctype))))
        | some ext =>
          let input := w.join [cwd, str "video", str "downloads", str "input" ++ ext]
          let output := w.join [cwd, str "video", str "compress",
                                str "super-compressed-" ++ w.now ++ str ".mp4"]
          let tr2 := tr1 ++ trP ++ [.log (str "Dowloading video : " ++ input)]
          match Download w p.VideoURL input with
          | (trD, .panic msg) => (tr2 ++ trD, .panic msg)
          | (trD, .ret (some err)) =>
            (tr2 ++ trD, .ret (some (errorfW (str "failed to download video: ") err)))
          | (trD, .ret none) =>
            let tr3 := tr2 ++ trD ++ [.log (str "compressing video")]
            match CompressVideo w input output with
            | (trC, some err) =>
              (tr3 ++ trC, .ret (some (errorfW (str "failed to compress video: ") err)))
            | (trC, none) =>
              (tr3 ++ trC ++ [.log (str "Video compressed successfully: " ++ output)],
               .ret none)

/-! ## The `/big_task` handler (`Go/asynq/server/main.go`) -/

/-- The fields of `asynq.TaskInfo` the handler logs. -/
structure TaskInfo where
  ID : GoString
  Queue : GoString
  deriving DecidableEq, Repr

/-- Observable actions of the HTTP handler. -/
inductive ServerEffect where
  | enqueue (t : Task)
  | log (msg : GoString)
  deriving DecidableEq, Repr

/-- What the handler writes to the `http.ResponseWriter`. -/
structure Reply where
  status : Nat
  body : GoString
  deriving DecidableEq, Repr

/-- The function `http.Error`: the status code and the message followed by a newline. -/
def httpError (msg : GoString) (code : Nat) : Reply := ⟨code, msg ++ str "\n"⟩

/-- The handler registered for `/big_task`; `enqueue` is `client.Enqueue`, `query`
is `r.URL.Query()`. -/
def bigTaskHandler (enqueue : Task → Except GoError TaskInfo) (query : Values) :
    List ServerEffect × Reply :=
  let videoURL := query.Get (str "video_url")
  if videoURL = [] then ([], httpError (str "video_url required") 400)
  else
    match NewVideoCompressionTask videoURL with
    | .error _ => ([], httpError (str "could not create task") 500)
    | .ok task =>
      match enqueue task with
      | .error _ => ([.enqueue task], httpError (str "could not enqueue task") 500)
      | .ok info =>
        ([.enqueue task,
          .log (str "enqueued task: id=" ++ info.ID ++ str " queue=" ++ info.Queue)],
         ⟨202, str "sent"⟩)

/-- Number of `client.Enqueue` calls in a trace. -/
def enqueueCount (tr : List ServerEffect) : Nat :=
  (tr.filter (fun e => match e with | .enqueue _ => true | _ => false)).length

/-- The tasks passed to `client.Enqueue` in a trace, in order. -/
def enqueueCalls (tr : List ServerEffect) : List Task :=
  tr.filterMap (fun e => match e with | .enqueue t => some t | _ => none)

/-! ## The worker configuration (`Go/asynq/worker/main.go`) -/

/-- The fields of `asynq.Config` the worker sets. -/
structure Config where
  Concurrency : Int
  Queues : List (String × Int)
  deriving DecidableEq, Repr

/-- The configuration passed to `asynq.NewServer` in `main`. -/
def workerConfig : Config :=
  { Concurrency := 10, Queues := [("critical", 6), ("default", 3), ("low", 1)] }

/-- Sum of the queue weights. -/
def Config.totalWeight (c : Config) : Int := (c.Queues.map Prod.snd).sum

/-- Proportional share of pulls of a queue: its weight over the total weight. -/
def Config.share (c : Config) (name : String) : ℚ :=
  ((c.Queues.lookup name).getD 0 : ℚ) / (c.totalWeight : ℚ)

/-! ## The scheduling engine (retry policy) -/

/-- Modelled from the spec: the scheduler is a library outside the sources; section
4.4 classifies a handler failure as permanent or transient. -/
inductive FailureKind where
  | transient | permanent
  deriving DecidableEq, Repr

/-- Modelled from the spec: "handlers must be able to assert do not retry me
explicitly (a permanent-failure signal), overriding the default transient
assumption"; the signal of the handler in the sources is an error that wraps
`asynq.SkipRetry`. -/
def classify (err : GoError) : FailureKind :=
  if errorsIs err SkipRetry then .permanent else .transient

/-- Modelled from the spec: outcome of one execution of a handler (a timeout is a
transient failure, section 4.3 step 4). -/
inductive HandlerResult where
  | success
  | failure (k : FailureKind)
  deriving DecidableEq, Repr

/-- Modelled from the spec: the states of a task, section 4.4
(`pending`, `leased`, terminal success, dead-lettered). -/
inductive Phase where
  | pending | leased | done | deadLettered
  deriving DecidableEq, Repr

/-- Modelled from the spec: the scheduling state of one task (section 3): the
limit `max_retries`, the counter `attempt` "incremented each time the task is
leased", its state, and the number of leases granted so far. -/
structure SchedTask where
  maxRetries : Nat
  attempt : Nat
  phase : Phase
  leases : Nat
  deriving DecidableEq, Repr

/-- Modelled from the spec: decision of the retry policy. -/
inductive Decision where
  | retryLater | deadLetter
  deriving DecidableEq, Repr

/-- Modelled from the spec: section 4.4, "Permanent: skips all remaining retries and
dead-letters immediately regardless of attempt vs max_retries. Transient: if
attempt <= max_retries, call RetryLater; else dead-letter". -/
def retryPolicy (k : FailureKind) (attempt maxRetries : Nat) : Decision :=
  match k with
  | .permanent => .deadLetter
  | .transient => if attempt ≤ maxRetries then .retryLater else .deadLetter

/-- Modelled from the spec: what can happen to a task: a worker asks to lease it, or
the execution under the current lease ends. -/
inductive Event where
  | lease
  | finish (r : HandlerResult)
  deriving DecidableEq, Repr

/-- Modelled from the spec: the state machine of section 4.4,
`pending -> leased -> success | transient-failure -> pending | dead-lettered`.
Only a pending task is leased (a lease increments `attempt`); only a leased
task finishes; terminal states accept nothing. -/
def SchedTask.step (t : SchedTask) : Event → SchedTask
  | .lease =>
    if t.phase = .pending then
      { t with phase := .leased, attempt := t.attempt + 1, leases := t.leases + 1 }
    else t
  | .finish r =>
    if t.phase = .leased then
      match r with
      | .success => { t with phase := .done }
      | .failure k =>
        match retryPolicy k t.attempt t.maxRetries with
        | .retryLater => { t with phase := .pending }
        | .deadLetter => { t with phase := .deadLettered }
    else t

/-- Modelled from the spec: a task after a sequence of events. -/
def SchedTask.run (t : SchedTask) (evs : List Event) : SchedTask := evs.foldl SchedTask.step t

/-- Modelled from the spec: a task as enqueued: pending, `attempt` 0, never leased. -/
def enqueued (maxRetries : Nat) : SchedTask :=
  { maxRetries := maxRetries, attempt := 0, phase := .pending, leases := 0 }

/-- Modelled from the spec: the dispatch loop on one task with a handler whose result
may depend on the attempt number: lease, execute, apply the policy, until the
task is terminal (at most `fuel` rounds). -/
def dispatch (handler : Nat → HandlerResult) : Nat → SchedTask → SchedTask
  | 0, t => t
  | fuel + 1, t =>
    if t.phase = .pending then
      let leased := t.step .lease
      dispatch handler fuel (leased.step (.finish (handler leased.attempt)))
    else t

/-- A task is terminal: acknowledged or dead-lettered. -/
def SchedTask.terminal (t : SchedTask) : Bool := t.phase = .done || t.phase = .deadLettered

/-! ## Concrete worlds used to instantiate the theorems -/

/-- A response with status 200 and the given `Content-Type`. -/
def okResponse (ct : GoString) : HttpResponse :=
  { StatusCode := 200, Status := str "200 OK", Header := [(str "Content-Type", [ct])] }

/-- A world in which `HEAD` and `GET` answer as given and everything else succeeds. -/
def sampleWorld (head get : Except GoError HttpResponse) : World :=
  { getwd := .ok (str "/srv"),
    newRequestErr := fun _ => none,
    doRequest := fun method _ => if method = str "HEAD" then head else get,
    create := fun _ => none,
    copy := fun _ => none,
    run := fun _ => none,
    now := str "20240101000000",
    join := fun parts => (parts.intersperse (str "/")).flatten }

/-- A network error as `http.Client.Do` reports it (a `*url.Error` around the cause). -/
def connectionRefused : GoError :=
  .wrap (str "Head \"http://example.com/v\": dial tcp: connection refused")
    (.fresh (str "dial tcp: connection refused"))

/-- A network error while the response body is read (`io.Copy` reports the
`*net.OpError` of the broken connection). -/
def connectionReset : GoError :=
  .wrap (str "read tcp 10.0.0.2:51234->93.184.216.34:80: read: connection reset by peer")
    (.fresh (str "connection reset by peer"))

/-- A world like `sampleWorld` in which copying the response body fails. -/
def copyFailWorld (head get : Except GoError HttpResponse) (err : GoError) : World :=
  { sampleWorld head get with copy := fun _ => some err }

/-- A world like `sampleWorld` in which creating the output file fails. -/
def createFailWorld (head get : Except GoError HttpResponse) (err : GoError) : World :=
  { sampleWorld head get with create := fun _ => some err }

/-- The task the server enqueues for `http://example.com/v`. -/
def sampleTask : Task :=
  NewTask TypeVideoCompressor (str "\x7b\"video_url\":\"http://example.com/v\"\x7d")
    [MaxRetry 2, Timeout (20 * Second)]

/-! ## Predicates used by the proofs -/

/-- Second byte accepted after a three-byte lead. -/
def ok3 (s0 s1 : Nat) : Prop :=
  (s0 = 0xE0 ∧ 0xA0 ≤ s1 ∧ s1 ≤ 0xBF) ∨ (0xE1 ≤ s0 ∧ s0 ≤ 0xEC ∧ 0x80 ≤ s1 ∧ s1 ≤ 0xBF) ∨
  (s0 = 0xED ∧ 0x80 ≤ s1 ∧ s1 ≤ 0x9F) ∨ (0xEE ≤ s0 ∧ s0 ≤ 0xEF ∧ 0x80 ≤ s1 ∧ s1 ≤ 0xBF)

/-- Second byte accepted after a four-byte lead. -/
def ok4 (s0 s1 : Nat) : Prop :=
  (s0 = 0xF0 ∧ 0x90 ≤ s1 ∧ s1 ≤ 0xBF) ∨ (0xF1 ≤ s0 ∧ s0 ≤ 0xF3 ∧ 0x80 ≤ s1 ∧ s1 ≤ 0xBF) ∨
  (s0 = 0xF4 ∧ 0x80 ≤ s1 ∧ s1 ≤ 0x8F)

/-- The scanner passes over a token inside a string literal. -/
def ScanTok (tok : GoString) : Prop :=
  ∀ E, scanString (tok ++ E) = (scanString E).map (fun r => (tok ++ r.1, r.2))

/-- One decoder step on a non-empty text. -/
def unquoteStepL : GoString → Option (GoString × Nat)
  | [] => none
  | c :: t => unquoteStep c t

/-- The decoder turns a token at the start of a string literal into the bytes `out`. -/
def UnqTok (tok out : GoString) : Prop :=
  ∀ E, unquoteStepL (tok ++ E) = some (out, tok.length)

/-! ## Lemmas: splitting and the retry state machine -/

theorem splitByte_ne_nil (sep : Byte) (s : GoString) : splitByte sep s ≠ [] := by
  induction s with
  | nil => simp [splitByte]
  | cons c t ih =>
    unfold splitByte
    split
    · simp
    · split <;> simp

theorem splitByte_head (sep : Byte) (s : GoString) :
    (splitByte sep s)[0]? = some (s.takeWhile (fun c => decide (c ≠ sep))) := by
  induction s with
  | nil => simp [splitByte]
  | cons c t ih =>
    unfold splitByte
    by_cases h : c = sep
    · simp [h]
    · simp only [h, if_false]
      cases hs : splitByte sep t with
      | nil => exact absurd hs (splitByte_ne_nil sep t)
      | cons x r =>
        rw [hs] at ih
        simp at ih
        simp [List.takeWhile, h, ih]

theorem step_invariant (t : SchedTask) (e : Event)
    (h1 : t.attempt = t.leases) (h2 : t.phase = .pending → t.attempt ≤ t.maxRetries)
    (h3 : t.attempt ≤ t.maxRetries + 1) :
    (t.step e).maxRetries = t.maxRetries ∧ (t.step e).attempt = (t.step e).leases ∧
    ((t.step e).phase = .pending → (t.step e).attempt ≤ (t.step e).maxRetries) ∧
    (t.step e).attempt ≤ (t.step e).maxRetries + 1 := by
  obtain ⟨r, a, ph, l⟩ := t
  simp only at h1 h2 h3
  subst h1
  cases e with
  | lease =>
    cases ph
    · have := h2 rfl
      simp [SchedTask.step]; omega
    all_goals simp [SchedTask.step]; omega
  | finish res =>
    cases ph
    case leased =>
      cases res with
      | success => simp [SchedTask.step]; omega
      | failure k =>
        cases k with
        | permanent => simp [SchedTask.step, retryPolicy]; omega
        | transient =>
          by_cases ha : a ≤ r
          · simp [SchedTask.step, retryPolicy, ha]; omega
          · simp [SchedTask.step, retryPolicy, ha]; omega
    case pending =>
      have := h2 rfl
      simp [SchedTask.step]; omega
    all_goals simp [SchedTask.step]; omega

theorem run_invariant (evs : List Event) (t : SchedTask)
    (h1 : t.attempt = t.leases) (h2 : t.phase = .pending → t.attempt ≤ t.maxRetries)
    (h3 : t.attempt ≤ t.maxRetries + 1) :
    (t.run evs).maxRetries = t.maxRetries ∧ (t.run evs).attempt = (t.run evs).leases ∧
    (t.run evs).attempt ≤ t.maxRetries + 1 := by
  induction evs generalizing t with
  | nil => exact ⟨rfl, h1, h3⟩
  | cons e rest ih =>
    obtain ⟨a, b, c, d⟩ := step_invariant t e h1 h2 h3
    have := ih (t.step e) b c d
    simp only [SchedTask.run, List.foldl_cons] at this ⊢
    rw [a] at this
    exact this

theorem run_terminal (evs : List Event) (t : SchedTask) (h : t.terminal = true) :
    t.run evs = t := by
  induction evs with
  | nil => rfl
  | cons e rest ih =>
    have hs : t.step e = t := by
      simp only [SchedTask.terminal, Bool.or_eq_true, decide_eq_true_eq] at h
      cases e <;> rcases h with h | h <;> simp [SchedTask.step, h]
    simp only [SchedTask.run, List.foldl_cons, hs] at ih ⊢
    exact ih

theorem dispatch_not_pending (handler : Nat → HandlerResult) (n : Nat) (t : SchedTask)
    (h : t.phase ≠ .pending) : dispatch handler n t = t := by
  cases n <;> simp [dispatch, h]

theorem dispatch_terminates (handler : Nat → HandlerResult) (n : Nat) :
    ∀ (t : SchedTask), t.phase ≠ .leased → t.attempt + n = t.maxRetries + 1 →
      (t.phase = .pending → 1 ≤ n) → t.attempt = t.leases →
      (dispatch handler n t).terminal = true ∧
      (dispatch handler n t).leases ≤ t.maxRetries + 1 := by
  induction n with
  | zero =>
    intro t hl h hp hal
    obtain ⟨r, a, ph, l⟩ := t
    simp only at hl h hal hp
    subst hal
    cases ph
    case leased => exact absurd rfl hl
    case pending => exact absurd (hp rfl) (by omega)
    all_goals simp [dispatch, SchedTask.terminal]; omega
  | succ m ih =>
    intro t hl h hp hal
    obtain ⟨r, a, ph, l⟩ := t
    simp only at hl h hal hp
    subst hal
    cases ph
    case leased => exact absurd rfl hl
    case pending =>
      cases hr : handler (a + 1) with
      | success =>
        rw [dispatch]
        simp only [SchedTask.step, hr, if_true]
        rw [dispatch_not_pending _ _ _ (by simp)]
        simp [SchedTask.terminal]; omega
      | failure k =>
        cases k with
        | permanent =>
          rw [dispatch]
          simp only [SchedTask.step, hr, if_true, retryPolicy]
          rw [dispatch_not_pending _ _ _ (by simp)]
          simp [SchedTask.terminal]; omega
        | transient =>
          by_cases ha : a + 1 ≤ r
          · have := ih ⟨r, a + 1, .pending, a + 1⟩ (by simp)
              (by show a + 1 + m = r + 1; omega) (by intro _; omega) rfl
            rw [dispatch]
            simp [SchedTask.step, hr, retryPolicy, ha]
            exact this
          · rw [dispatch]
            simp only [SchedTask.step, hr, if_true, retryPolicy, ha, if_false]
            rw [dispatch_not_pending _ _ _ (by simp)]
            simp [SchedTask.terminal]; omega
    all_goals simp [dispatch, SchedTask.terminal]; omega

theorem errorfW_not_skip (pre : GoString) (e : GoError) (h : errorsIs e SkipRetry = false) :
    errorsIs (errorfW pre e) SkipRetry = false := by
  simp [errorfW, errorsIs, GoError.same, SkipRetry] 
  simpa [SkipRetry] using h

theorem classify_transient (e : GoError) (h : errorsIs e SkipRetry = false) :
    classify e = .transient := by
  simp [classify, h]

theorem dispatch_always_transient (n : Nat) : ∀ (r a : Nat), a ≤ r → r + 1 ≤ a + n →
    dispatch (fun _ => .failure .transient) n ⟨r, a, .pending, a⟩
      = ⟨r, r + 1, .deadLettered, r + 1⟩ := by
  induction n with
  | zero => intro r a h1 h2; omega
  | succ m ih =>
    intro r a h1 h2
    by_cases ha : a + 1 ≤ r
    · have := ih r (a + 1) ha (by omega)
      rw [dispatch]
      simp [SchedTask.step, retryPolicy, ha]
      exact this
    · have hr : a = r := by omega
      subst hr
      rw [dispatch]
      simp only [SchedTask.step, if_true, retryPolicy, ha, if_false]
      rw [dispatch_not_pending _ _ _ (by simp)]

/-! ## Lemmas: UTF-8 and the JSON round trip -/

theorem firstInfo_two (s0 : Nat) (h : 0xC2 ≤ s0 ∧ s0 ≤ 0xDF) :
    firstInfo s0 = some (2, 0x80, 0xBF) := by
  unfold firstInfo; split_ifs <;> first | rfl | omega

theorem firstInfo_three (s0 s1 : Nat) (h : ok3 s0 s1) :
    ∃ lo hi, firstInfo s0 = some (3, lo, hi) ∧ lo ≤ s1 ∧ s1 ≤ hi := by
  unfold ok3 at h
  rcases h with h | h | h | h
  · obtain ⟨rfl, h1, h2⟩ := h
    exact ⟨0xA0, 0xBF, rfl, h1, h2⟩
  · refine ⟨0x80, 0xBF, ?_, h.2.2.1, h.2.2.2⟩
    unfold firstInfo
    rw [if_neg (by omega), if_neg (by omega), if_neg (by omega), if_pos (by omega)]
  · obtain ⟨rfl, h1, h2⟩ := h
    exact ⟨0x80, 0x9F, rfl, h1, h2⟩
  · refine ⟨0x80, 0xBF, ?_, h.2.2.1, h.2.2.2⟩
    unfold firstInfo
    rw [if_neg (by omega), if_neg (by omega), if_neg (by omega), if_neg (by omega),
      if_neg (by omega), if_pos (by omega)]

theorem firstInfo_four (s0 s1 : Nat) (h : ok4 s0 s1) :
    ∃ lo hi, firstInfo s0 = some (4, lo, hi) ∧ lo ≤ s1 ∧ s1 ≤ hi := by
  unfold ok4 at h
  rcases h with h | h | h
  · obtain ⟨rfl, h1, h2⟩ := h
    exact ⟨0x90, 0xBF, rfl, h1, h2⟩
  · refine ⟨0x80, 0xBF, ?_, h.2.2.1, h.2.2.2⟩
    unfold firstInfo
    rw [if_neg (by omega), if_neg (by omega), if_neg (by omega), if_neg (by omega),
      if_neg (by omega), if_neg (by omega), if_neg (by omega), if_pos (by omega)]
  · obtain ⟨rfl, h1, h2⟩ := h
    exact ⟨0x80, 0x8F, rfl, h1, h2⟩

theorem firstInfo_cases (s0 : Nat) (sz lo hi : Nat) (h : firstInfo s0 = some (sz, lo, hi)) :
    (sz = 2 ∧ 0xC2 ≤ s0 ∧ s0 ≤ 0xDF ∧ lo = 0x80 ∧ hi = 0xBF) ∨
    (sz = 3 ∧ ∀ s1, lo ≤ s1 → s1 ≤ hi → ok3 s0 s1) ∨
    (sz = 4 ∧ ∀ s1, lo ≤ s1 → s1 ≤ hi → ok4 s0 s1) := by
  unfold firstInfo at h
  split_ifs at h <;> simp only [Option.some.injEq, Prod.mk.injEq] at h <;>
    obtain ⟨rfl, rfl, rfl⟩ := h
  · left; omega
  · right; left; refine ⟨rfl, fun s1 a b => ?_⟩; unfold ok3; omega
  · right; left; refine ⟨rfl, fun s1 a b => ?_⟩; unfold ok3; omega
  · right; left; refine ⟨rfl, fun s1 a b => ?_⟩; unfold ok3; omega
  · right; left; refine ⟨rfl, fun s1 a b => ?_⟩; unfold ok3; omega
  · right; right; refine ⟨rfl, fun s1 a b => ?_⟩; unfold ok4; omega
  · right; right; refine ⟨rfl, fun s1 a b => ?_⟩; unfold ok4; omega
  · right; right; refine ⟨rfl, fun s1 a b => ?_⟩; unfold ok4; omega

theorem decodeRune_two (s0 s1 : Byte) (t : GoString) (h0 : 0xC2 ≤ s0.val ∧ s0.val ≤ 0xDF)
    (h1 : 0x80 ≤ s1.val ∧ s1.val ≤ 0xBF) :
    decodeRune (s0 :: s1 :: t) = ((s0.val % 32) * 64 + s1.val % 64, 2) := by
  have hlt : ¬ s0.val < 0x80 := by omega
  have hr : ¬ (s1.val < 0x80 ∨ 0xBF < s1.val) := by omega
  simp only [decodeRune, hlt, if_false, firstInfo_two _ h0, List.length_cons]
  simp [hr]

theorem decodeRune_three (s0 s1 s2 : Byte) (t : GoString) (h0 : ok3 s0.val s1.val)
    (h2 : 0x80 ≤ s2.val ∧ s2.val ≤ 0xBF) :
    decodeRune (s0 :: s1 :: s2 :: t)
      = ((s0.val % 16) * 4096 + (s1.val % 64) * 64 + s2.val % 64, 3) := by
  obtain ⟨lo, hi, hf, hlo, hhi⟩ := firstInfo_three _ _ h0
  have hlt : ¬ s0.val < 0x80 := by unfold ok3 at h0; omega
  have hr : ¬ (s1.val < lo ∨ hi < s1.val) := by omega
  simp only [decodeRune, hlt, if_false, hf, List.length_cons]
  simp [hr, isCont, h2.1, h2.2]

theorem decodeRune_four (s0 s1 s2 s3 : Byte) (t : GoString) (h0 : ok4 s0.val s1.val)
    (h2 : 0x80 ≤ s2.val ∧ s2.val ≤ 0xBF) (h3 : 0x80 ≤ s3.val ∧ s3.val ≤ 0xBF) :
    decodeRune (s0 :: s1 :: s2 :: s3 :: t)
      = ((s0.val % 8) * 262144 + (s1.val % 64) * 4096 + (s2.val % 64) * 64 + s3.val % 64, 4) := by
  obtain ⟨lo, hi, hf, hlo, hhi⟩ := firstInfo_four _ _ h0
  have hlt : ¬ s0.val < 0x80 := by unfold ok4 at h0; omega
  have hr : ¬ (s1.val < lo ∨ hi < s1.val) := by omega
  simp only [decodeRune, hlt, if_false, hf, List.length_cons]
  simp [hr, isCont, h2.1, h2.2, h3.1, h3.2]

theorem decodeRune_valid_cases (s0 : Byte) (t : GoString) (h0 : ¬ s0.val < 0x80)
    (hv : ¬ ((decodeRune (s0 :: t)).1 = RuneError ∧ (decodeRune (s0 :: t)).2 = 1)) :
    (∃ s1 t1, t = s1 :: t1 ∧ (0xC2 ≤ s0.val ∧ s0.val ≤ 0xDF) ∧ (0x80 ≤ s1.val ∧ s1.val ≤ 0xBF)) ∨
    (∃ s1 s2 t2, t = s1 :: s2 :: t2 ∧ ok3 s0.val s1.val ∧ (0x80 ≤ s2.val ∧ s2.val ≤ 0xBF)) ∨
    (∃ s1 s2 s3 t3, t = s1 :: s2 :: s3 :: t3 ∧ ok4 s0.val s1.val ∧
      (0x80 ≤ s2.val ∧ s2.val ≤ 0xBF) ∧ (0x80 ≤ s3.val ∧ s3.val ≤ 0xBF)) := by
  cases hf : firstInfo s0.val with
  | none =>
    exfalso; apply hv
    simp only [decodeRune, h0, if_false, hf]
    simp
  | some info =>
    obtain ⟨sz, lo, hi⟩ := info
    cases t with
    | nil =>
      exfalso; apply hv
      simp only [decodeRune, h0, if_false, hf]
      split_ifs <;> exact ⟨rfl, rfl⟩
    | cons s1 t1 =>
      by_cases hr : s1.val < lo ∨ hi < s1.val
      · exfalso; apply hv
        simp only [decodeRune, h0, if_false, hf, hr, if_true]
        split_ifs <;> exact ⟨rfl, rfl⟩
      · have hr1 : lo ≤ s1.val := by omega
        have hr2 : s1.val ≤ hi := by omega
        rcases firstInfo_cases _ _ _ _ hf with ⟨rfl, h1, h2, rfl, rfl⟩ | ⟨rfl, h3⟩ | ⟨rfl, h4⟩
        · left; exact ⟨s1, t1, rfl, ⟨h1, h2⟩, ⟨hr1, hr2⟩⟩
        · right; left
          cases t1 with
          | nil =>
            exfalso; apply hv
            simp only [decodeRune, h0, if_false, hf, hr]
            simp [RuneError]
          | cons s2 t2 =>
            by_cases hc : isCont s2.val = true
            · refine ⟨s1, s2, t2, rfl, h3 _ hr1 hr2, ?_⟩
              simpa [isCont] using hc
            · exfalso; apply hv
              simp only [decodeRune, h0, if_false, hf, hr, List.length_cons]
              simp [hc, RuneError]
        · right; right
          cases t1 with
          | nil =>
            exfalso; apply hv
            simp only [decodeRune, h0, if_false, hf, hr]
            simp [RuneError]
          | cons s2 t2 =>
            by_cases hc : isCont s2.val = true
            · cases t2 with
              | nil =>
                exfalso; apply hv
                simp only [decodeRune, h0, if_false, hf, hr]
                simp [RuneError]
              | cons s3 t3 =>
                by_cases hc3 : isCont s3.val = true
                · refine ⟨s1, s2, s3, t3, rfl, h4 _ hr1 hr2, ?_, ?_⟩
                  · simpa [isCont] using hc
                  · simpa [isCont] using hc3
                · exfalso; apply hv
                  simp only [decodeRune, h0, if_false, hf, hr, List.length_cons]
                  simp [hc, hc3, RuneError]
            · exfalso; apply hv
              simp only [decodeRune, h0, if_false, hf, hr, List.length_cons]
              simp [hc, RuneError]

theorem ofNat_val (b : Byte) (n : Nat) (h : n = b.val) : (Fin.ofNat n : Byte) = b := by
  apply Fin.ext
  have := b.isLt
  simp only [Fin.ofNat, h]
  omega

theorem encodeRune_two (s0 s1 : Byte) (h0 : 0xC2 ≤ s0.val ∧ s0.val ≤ 0xDF)
    (h1 : 0x80 ≤ s1.val ∧ s1.val ≤ 0xBF) :
    encodeRune ((s0.val % 32) * 64 + s1.val % 64) = [s0, s1] := by
  unfold encodeRune
  rw [if_neg (by omega), if_pos (by omega)]
  rw [ofNat_val s0 _ (by omega), ofNat_val s1 _ (by omega)]

theorem encodeRune_three (s0 s1 s2 : Byte) (h0 : ok3 s0.val s1.val)
    (h2 : 0x80 ≤ s2.val ∧ s2.val ≤ 0xBF) :
    encodeRune ((s0.val % 16) * 4096 + (s1.val % 64) * 64 + s2.val % 64) = [s0, s1, s2] := by
  unfold ok3 at h0
  unfold encodeRune
  rw [if_neg (by omega), if_neg (by omega), if_neg (by omega), if_pos (by omega)]
  unfold encode3
  rw [ofNat_val s0 _ (by omega), ofNat_val s1 _ (by omega), ofNat_val s2 _ (by omega)]

theorem encodeRune_four (s0 s1 s2 s3 : Byte) (h0 : ok4 s0.val s1.val)
    (h2 : 0x80 ≤ s2.val ∧ s2.val ≤ 0xBF) (h3 : 0x80 ≤ s3.val ∧ s3.val ≤ 0xBF) :
    encodeRune ((s0.val % 8) * 262144 + (s1.val % 64) * 4096 + (s2.val % 64) * 64 + s3.val % 64)
      = [s0, s1, s2, s3] := by
  unfold ok4 at h0
  unfold encodeRune
  rw [if_neg (by omega), if_neg (by omega), if_neg (by omega), if_neg (by omega)]
  rw [ofNat_val s0 _ (by omega), ofNat_val s1 _ (by omega), ofNat_val s2 _ (by omega),
    ofNat_val s3 _ (by omega)]

theorem scanString_plain (b : Byte) (E : GoString) (h1 : 0x20 ≤ b.val) (h2 : b.val ≠ 0x22)
    (h3 : b.val ≠ 0x5C) :
    scanString (b :: E) = (scanString E).map (fun r => (b :: r.1, r.2)) := by
  have h4 : ¬ b.val < 0x20 := by omega
  conv => lhs; unfold scanString
  simp only [h2, h3, h4, if_false]

theorem scanString_simple (e : Byte) (E : GoString) (h : isSimpleEscape e = true) :
    scanString (0x5C :: e :: E) = (scanString E).map (fun r => (0x5C :: e :: r.1, r.2)) := by
  conv => lhs; unfold scanString
  have h1 : ¬ ((0x5C : Byte).val = 0x22) := by decide
  have h2 : (0x5C : Byte).val = 0x5C := by decide
  simp only [h1, h2, if_false, if_true, h]
  simp

theorem scanString_u (a b c d : Byte) (E : GoString) (ha : (hexVal a).isSome)
    (hb : (hexVal b).isSome) (hc : (hexVal c).isSome) (hd : (hexVal d).isSome) :
    scanString (0x5C :: 0x75 :: a :: b :: c :: d :: E)
      = (scanString E).map (fun r => (0x5C :: 0x75 :: a :: b :: c :: d :: r.1, r.2)) := by
  conv => lhs; unfold scanString
  have h1 : ¬ ((0x5C : Byte).val = 0x22) := by decide
  have h2 : (0x5C : Byte).val = 0x5C := by decide
  have h3 : isSimpleEscape (0x75 : Byte) = false := by decide
  have h4 : (0x75 : Byte).val = 0x75 := by decide
  simp only [h1, h2, if_false, if_true, h3, h4, ha, hb, hc, hd, and_self, Bool.false_eq_true]
  simp

theorem scanString_quote (E : GoString) : scanString (0x22 :: E) = some ([], E) := by
  conv => lhs; unfold scanString
  have h1 : (0x22 : Byte).val = 0x22 := by decide
  simp only [h1, if_true]

theorem scanTok_nil : ScanTok [] := by
  intro E
  cases h : scanString E <;> simp [h]

theorem scanTok_append (a b : GoString) (ha : ScanTok a) (hb : ScanTok b) : ScanTok (a ++ b) := by
  intro E
  rw [List.append_assoc, ha, hb]
  cases h : scanString E <;> simp

theorem scanTok_plain (b : Byte) (h1 : 0x20 ≤ b.val) (h2 : b.val ≠ 0x22) (h3 : b.val ≠ 0x5C) :
    ScanTok [b] := by
  intro E
  exact scanString_plain b E h1 h2 h3

theorem scanTok_plains (pre : GoString) (h : ∀ b ∈ pre, 0x80 ≤ b.val) : ScanTok pre := by
  induction pre with
  | nil => exact scanTok_nil
  | cons b t ih =>
    have hb := h b (List.mem_cons_self _ _)
    have := scanTok_append [b] t (scanTok_plain b (by omega) (by omega) (by omega))
      (ih (fun x hx => h x (List.mem_cons_of_mem _ hx)))
    simpa using this

theorem scanTok_simple (e : Byte) (h : isSimpleEscape e = true) : ScanTok [0x5C, e] := by
  intro E
  exact scanString_simple e E h

theorem scanTok_u (a b c d : Byte) (ha : (hexVal a).isSome) (hb : (hexVal b).isSome)
    (hc : (hexVal c).isSome) (hd : (hexVal d).isSome) : ScanTok [0x5C, 0x75, a, b, c, d] := by
  intro E
  exact scanString_u a b c d E ha hb hc hd

theorem unquoteBody_tok (tok out : GoString) (h : UnqTok tok out) (f : Nat) (E : GoString) :
    unquoteBody (f + 1) (tok ++ E) = (unquoteBody f E).map (out ++ ·) := by
  cases tok with
  | nil =>
    have := h []
    simp [unquoteStepL] at this
  | cons c t =>
    have := h E
    simp only [List.cons_append, unquoteStepL] at this
    simp only [List.cons_append]
    rw [unquoteBody, this]
    have hd : List.drop (c :: t).length (c :: (t ++ E)) = E := by
      simp
    simp only [hd]

theorem unqTok_plain (b : Byte) (h1 : 0x20 ≤ b.val) (h2 : b.val ≠ 0x22) (h3 : b.val ≠ 0x5C)
    (h4 : b.val < 0x80) : UnqTok [b] [b] := by
  intro E
  have h5 : ¬ (b.val = 0x22 ∨ b.val < 0x20) := by omega
  simp only [List.singleton_append, unquoteStepL, unquoteStep, h3, h5, h4, if_false, if_true,
    List.length_singleton]

theorem unqTok_simple (e out : Byte)
    (h : (e.val = 0x22 ∨ e.val = 0x5C) ∧ out = e ∨ e.val = 0x62 ∧ out = 0x08 ∨
      e.val = 0x66 ∧ out = 0x0C ∨ e.val = 0x6E ∧ out = 0x0A ∨ e.val = 0x72 ∧ out = 0x0D ∨
      e.val = 0x74 ∧ out = 0x09) : UnqTok [0x5C, e] [out] := by
  intro E
  have h2 : (0x5C : Byte).val = 0x5C := by decide
  simp only [List.cons_append, List.nil_append, unquoteStepL, unquoteStep, h2, if_true]
  rcases h with ⟨h, he⟩ | ⟨h, he⟩ | ⟨h, he⟩ | ⟨h, he⟩ | ⟨h, he⟩ | ⟨h, he⟩
  · have h' : e.val = 0x22 ∨ e.val = 0x5C ∨ e.val = 0x2F ∨ e.val = 0x27 := by omega
    simp only [h', if_true, List.length_cons, List.length_nil, he]
  all_goals simp [h, he]

theorem getu4_eq (a b c d : Byte) (E : GoString) (va vb vc vd : Nat)
    (ha : hexVal a = some va) (hb : hexVal b = some vb) (hc : hexVal c = some vc)
    (hd : hexVal d = some vd) :
    getu4 (0x5C :: 0x75 :: a :: b :: c :: d :: E) = some (va * 4096 + vb * 256 + vc * 16 + vd) := by
  unfold getu4
  have h2 : (0x5C : Byte).val = 0x5C := by decide
  have h3 : (0x75 : Byte).val = 0x75 := by decide
  simp [ha, hb, hc, hd, h2, h3]

theorem unqTok_u (a b c d : Byte) (va vb vc vd : Nat)
    (ha : hexVal a = some va) (hb : hexVal b = some vb) (hc : hexVal c = some vc)
    (hd : hexVal d = some vd)
    (hs : ¬ (0xD800 ≤ va * 4096 + vb * 256 + vc * 16 + vd ∧
             va * 4096 + vb * 256 + vc * 16 + vd < 0xE000)) :
    UnqTok [0x5C, 0x75, a, b, c, d] (encodeRune (va * 4096 + vb * 256 + vc * 16 + vd)) := by
  intro E
  have h2 : (0x5C : Byte).val = 0x5C := by decide
  have h3 : (0x75 : Byte).val = 0x75 := by decide
  simp only [List.cons_append, List.nil_append, unquoteStepL, unquoteStep, h2, if_true, h3,
    getu4_eq a b c d E va vb vc vd ha hb hc hd, hs, if_false]
  simp

theorem unqTok_rune (pre : GoString) (b : Byte) (t : GoString) (hpre : pre = b :: t)
    (hb : 0x80 ≤ b.val) (c : Nat)
    (hdec : ∀ X, decodeRune (pre ++ X) = (c, pre.length)) (henc : encodeRune c = pre) :
    UnqTok pre pre := by
  intro E
  have hd := hdec E
  subst hpre
  simp only [List.cons_append] at hd
  have h1 : ¬ b.val = 0x5C := by omega
  have h2 : ¬ (b.val = 0x22 ∨ b.val < 0x20) := by omega
  have h3 : ¬ b.val < 0x80 := by omega
  simp only [List.cons_append, unquoteStepL, unquoteStep, h1, h2, h3, if_false, hd, henc]

theorem decodeRune_valid (b : Byte) (t : GoString) (h0 : ¬ b.val < 0x80)
    (hv : ¬ ((decodeRune (b :: t)).1 = RuneError ∧ (decodeRune (b :: t)).2 = 1)) :
    ∃ pre tl, pre = b :: tl ∧ pre = (b :: t).take (decodeRune (b :: t)).2 ∧
      pre.length = (decodeRune (b :: t)).2 ∧ (∀ x ∈ pre, 0x80 ≤ x.val) ∧
      encodeRune (decodeRune (b :: t)).1 = pre ∧
      (∀ X, decodeRune (pre ++ X) = ((decodeRune (b :: t)).1, pre.length)) := by
  rcases decodeRune_valid_cases b t h0 hv with
    ⟨s1, t1, rfl, hb, h1⟩ | ⟨s1, s2, t2, rfl, hb, h2⟩ | ⟨s1, s2, s3, t3, rfl, hb, h2, h3⟩
  · refine ⟨[b, s1], [s1], rfl, ?_, ?_, ?_, ?_, ?_⟩
    · rw [decodeRune_two b s1 t1 hb h1]; rfl
    · rw [decodeRune_two b s1 t1 hb h1]; rfl
    · intro x hx
      simp only [List.mem_cons, List.mem_singleton, List.not_mem_nil, or_false] at hx
      rcases hx with rfl | rfl <;> omega
    · rw [decodeRune_two b s1 t1 hb h1]; exact encodeRune_two b s1 hb h1
    · intro X
      rw [decodeRune_two b s1 t1 hb h1]
      exact decodeRune_two b s1 X hb h1
  · have hb' : 0x80 ≤ s1.val := by unfold ok3 at hb; omega
    refine ⟨[b, s1, s2], [s1, s2], rfl, ?_, ?_, ?_, ?_, ?_⟩
    · rw [decodeRune_three b s1 s2 t2 hb h2]; rfl
    · rw [decodeRune_three b s1 s2 t2 hb h2]; rfl
    · intro x hx
      simp only [List.mem_cons, List.mem_singleton, List.not_mem_nil, or_false] at hx
      rcases hx with rfl | rfl | rfl <;> omega
    · rw [decodeRune_three b s1 s2 t2 hb h2]; exact encodeRune_three b s1 s2 hb h2
    · intro X
      rw [decodeRune_three b s1 s2 t2 hb h2]
      exact decodeRune_three b s1 s2 X hb h2
  · have hb' : 0x80 ≤ s1.val := by unfold ok4 at hb; omega
    refine ⟨[b, s1, s2, s3], [s1, s2, s3], rfl, ?_, ?_, ?_, ?_, ?_⟩
    · rw [decodeRune_four b s1 s2 s3 t3 hb h2 h3]; rfl
    · rw [decodeRune_four b s1 s2 s3 t3 hb h2 h3]; rfl
    · intro x hx
      simp only [List.mem_cons, List.mem_singleton, List.not_mem_nil, or_false] at hx
      rcases hx with rfl | rfl | rfl | rfl <;> omega
    · rw [decodeRune_four b s1 s2 s3 t3 hb h2 h3]; exact encodeRune_four b s1 s2 s3 hb h2 h3
    · intro X
      rw [decodeRune_four b s1 s2 s3 t3 hb h2 h3]
      exact decodeRune_four b s1 s2 s3 X hb h2 h3

theorem decodeRune_ascii (b : Byte) (t : GoString) (h : b.val < 0x80) :
    decodeRune (b :: t) = (b.val, 1) := by
  simp [decodeRune, h]

theorem hexVal_hexDigit (n : Nat) (h : n < 16) : hexVal (hexDigit n) = some n := by
  interval_cases n <;> decide

theorem escapeASCII_tok (b : Byte) (h : b.val < 0x80) :
    ScanTok (escapeASCII b) ∧ UnqTok (escapeASCII b) [b] := by
  unfold escapeASCII
  by_cases h1 : b.val = 0x5C ∨ b.val = 0x22
  · rw [if_pos h1]
    refine ⟨scanTok_simple b ?_, unqTok_simple b b (Or.inl ⟨by omega, rfl⟩)⟩
    rcases h1 with h1 | h1 <;> simp [isSimpleEscape, h1]
  rw [if_neg h1]
  by_cases h2 : b.val = 0x08
  · rw [if_pos h2]
    have hb : b = 0x08 := Fin.ext h2
    exact ⟨scanTok_simple 0x62 (by decide), unqTok_simple 0x62 b (by rw [hb]; decide)⟩
  rw [if_neg h2]
  by_cases h3 : b.val = 0x0C
  · rw [if_pos h3]
    have hb : b = 0x0C := Fin.ext h3
    exact ⟨scanTok_simple 0x66 (by decide), unqTok_simple 0x66 b (by rw [hb]; decide)⟩
  rw [if_neg h3]
  by_cases h4 : b.val = 0x0A
  · rw [if_pos h4]
    have hb : b = 0x0A := Fin.ext h4
    exact ⟨scanTok_simple 0x6E (by decide), unqTok_simple 0x6E b (by rw [hb]; decide)⟩
  rw [if_neg h4]
  by_cases h5 : b.val = 0x0D
  · rw [if_pos h5]
    have hb : b = 0x0D := Fin.ext h5
    exact ⟨scanTok_simple 0x72 (by decide), unqTok_simple 0x72 b (by rw [hb]; decide)⟩
  rw [if_neg h5]
  by_cases h6 : b.val = 0x09
  · rw [if_pos h6]
    have hb : b = 0x09 := Fin.ext h6
    exact ⟨scanTok_simple 0x74 (by decide), unqTok_simple 0x74 b (by rw [hb]; decide)⟩
  rw [if_neg h6]
  have hd1 := hexVal_hexDigit (b.val / 16) (by omega)
  have hd2 := hexVal_hexDigit (b.val % 16) (by omega)
  have h0 : hexVal (0x30 : Byte) = some 0 := by decide
  have hstr : str "\\u00" ++ [hexDigit (b.val / 16), hexDigit (b.val % 16)]
      = [0x5C, 0x75, 0x30, 0x30, hexDigit (b.val / 16), hexDigit (b.val % 16)] := rfl
  rw [hstr]
  refine ⟨scanTok_u _ _ _ _ (by simp [h0]) (by simp [h0]) (by simp [hd1]) (by simp [hd2]), ?_⟩
  have := unqTok_u 0x30 0x30 (hexDigit (b.val / 16)) (hexDigit (b.val % 16)) 0 0 (b.val / 16)
    (b.val % 16) h0 h0 hd1 hd2 (by omega)
  have hv : 0 * 4096 + 0 * 256 + b.val / 16 * 16 + b.val % 16 = b.val := by omega
  rw [hv] at this
  have he : encodeRune b.val = [b] := by
    unfold encodeRune
    rw [if_pos (by omega), ofNat_val b _ rfl]
  rw [he] at this
  exact this

theorem appendStep_tok (b : Byte) (t : GoString) :
    ∃ out, ScanTok (appendStep b t).1 ∧ UnqTok (appendStep b t).1 out ∧
      1 ≤ (appendStep b t).2 ∧
      (∀ fuel, coerceUTF8Aux (fuel + 1) (b :: t)
        = out ++ coerceUTF8Aux fuel ((b :: t).drop (appendStep b t).2)) := by
  by_cases h0 : b.val < 0x80
  · have hd := decodeRune_ascii b t h0
    have hne : ¬ ((decodeRune (b :: t)).1 = RuneError ∧ (decodeRune (b :: t)).2 = 1) := by
      rw [hd]; simp only [RuneError]; omega
    have hc : ∀ fuel, coerceUTF8Aux (fuel + 1) (b :: t) = [b] ++ coerceUTF8Aux fuel t := by
      intro fuel
      rw [coerceUTF8Aux]
      simp only [hne, if_false]
      rw [hd]
      rfl
    by_cases hs : htmlSafe b.val = true
    · have hs' := hs
      simp only [htmlSafe, Bool.and_eq_true, decide_eq_true_eq, bne_iff_ne, ne_eq] at hs'
      refine ⟨[b], ?_, ?_, ?_, ?_⟩
      · simp only [appendStep, h0, if_true, hs]
        exact scanTok_plain b (by omega) (by omega) (by omega)
      · simp only [appendStep, h0, if_true, hs]
        exact unqTok_plain b (by omega) (by omega) (by omega) h0
      · simp [appendStep, h0]
      · intro fuel
        simp only [appendStep, h0, if_true, hs, List.drop_succ_cons, List.drop_zero]
        exact hc fuel
    · have ht := escapeASCII_tok b h0
      refine ⟨[b], ?_, ?_, ?_, ?_⟩
      · simp only [appendStep, h0, if_true, hs]
        exact ht.1
      · simp only [appendStep, h0, if_true, hs]
        exact ht.2
      · simp [appendStep, h0]
      · intro fuel
        simp only [appendStep, h0, if_true, hs, List.drop_succ_cons, List.drop_zero]
        exact hc fuel
  · by_cases hv : (decodeRune (b :: t)).1 = RuneError ∧ (decodeRune (b :: t)).2 = 1
    · refine ⟨encodeRune RuneError, ?_, ?_, ?_, ?_⟩
      · simp only [appendStep, h0, if_false, hv, and_self, if_true]
        exact scanTok_u 0x66 0x66 0x66 0x64 (by decide) (by decide) (by decide) (by decide)
      · simp only [appendStep, h0, if_false, hv, and_self, if_true]
        exact unqTok_u 0x66 0x66 0x66 0x64 15 15 15 13 (by decide) (by decide) (by decide)
          (by decide) (by decide)
      · simp [appendStep, h0, hv]
      · intro fuel
        rw [coerceUTF8Aux]
        simp only [appendStep, h0, if_false, hv, and_self, if_true, List.drop_succ_cons,
          List.drop_zero]
    · obtain ⟨pre, tl, hpre, htake, hlen, hall, henc, hdec⟩ := decodeRune_valid b t h0 hv
      have hpos : 1 ≤ (decodeRune (b :: t)).2 := by
        rw [← hlen, hpre]; simp
      have hc : ∀ fuel, coerceUTF8Aux (fuel + 1) (b :: t)
          = pre ++ coerceUTF8Aux fuel ((b :: t).drop (decodeRune (b :: t)).2) := by
        intro fuel
        rw [coerceUTF8Aux]
        simp only [hv, if_false]
        rw [htake]
      by_cases hl : (decodeRune (b :: t)).1 = 0x2028 ∨ (decodeRune (b :: t)).1 = 0x2029
      · refine ⟨pre, ?_, ?_, ?_, ?_⟩
        · simp only [appendStep, h0, if_false, hv, hl, if_true]
          rcases hl with hl | hl <;> rw [hl] <;>
            exact scanTok_u 0x32 0x30 0x32 _ (by decide) (by decide) (by decide) (by decide)
        · simp only [appendStep, h0, if_false, hv, hl, if_true]
          rw [← henc]
          rcases hl with hl | hl <;> rw [hl]
          · exact unqTok_u 0x32 0x30 0x32 0x38 2 0 2 8 (by decide) (by decide) (by decide)
              (by decide) (by decide)
          · exact unqTok_u 0x32 0x30 0x32 0x39 2 0 2 9 (by decide) (by decide) (by decide)
              (by decide) (by decide)
        · simp only [appendStep, h0, if_false, hv, hl, if_true]
          exact hpos
        · intro fuel
          simp only [appendStep, h0, if_false, hv, hl, if_true]
          exact hc fuel
      · refine ⟨pre, ?_, ?_, ?_, ?_⟩
        · simp only [appendStep, h0, if_false, hv, hl, if_true]
          rw [← htake]
          exact scanTok_plains pre hall
        · simp only [appendStep, h0, if_false, hv, hl, if_true]
          rw [← htake]
          exact unqTok_rune pre b tl hpre (by omega) _ hdec henc
        · simp only [appendStep, h0, if_false, hv, hl, if_true]
          exact hpos
        · intro fuel
          simp only [appendStep, h0, if_false, hv, hl, if_true]
          exact hc fuel

theorem appendStringBody_nil (fuel : Nat) : appendStringBody fuel [] = [] := by
  cases fuel <;> rfl

theorem coerceUTF8Aux_nil (fuel : Nat) : coerceUTF8Aux fuel [] = [] := by
  cases fuel <;> rfl

theorem unquoteBody_nil (fuel : Nat) : unquoteBody fuel [] = some [] := by
  cases fuel <;> rfl

theorem unqTok_ne_nil (tok out : GoString) (h : UnqTok tok out) : 1 ≤ tok.length := by
  cases tok with
  | nil => have := h []; simp [unquoteStepL] at this
  | cons c t => simp

theorem scan_appendStringBody (fuel : Nat) : ∀ (src rest : GoString),
    scanString (appendStringBody fuel src ++ 0x22 :: rest)
      = some (appendStringBody fuel src, rest) := by
  induction fuel with
  | zero =>
    intro src rest
    cases src with
    | nil => simp [appendStringBody, scanString_quote]
    | cons b t => simp [appendStringBody, scanString_quote]
  | succ n ih =>
    intro src rest
    cases src with
    | nil => simp [appendStringBody, scanString_quote]
    | cons b t =>
      obtain ⟨out, hs, _, _, _⟩ := appendStep_tok b t
      rw [appendStringBody, List.append_assoc, hs, ih]
      simp

theorem unquote_appendStringBody (fuel : Nat) : ∀ (src : GoString) (f : Nat),
    src.length ≤ fuel → (appendStringBody fuel src).length ≤ f →
    unquoteBody f (appendStringBody fuel src) = some (coerceUTF8Aux fuel src) := by
  induction fuel with
  | zero =>
    intro src f hl _
    cases src with
    | nil => simp [appendStringBody, coerceUTF8Aux, unquoteBody_nil]
    | cons b t => simp at hl
  | succ n ih =>
    intro src f hl hf
    cases src with
    | nil => simp [appendStringBody, coerceUTF8Aux, unquoteBody_nil]
    | cons b t =>
      obtain ⟨out, _, hu, hpos, hc⟩ := appendStep_tok b t
      have htok := unqTok_ne_nil _ _ hu
      rw [appendStringBody] at hf ⊢
      rw [List.length_append] at hf
      obtain ⟨f', rfl⟩ : ∃ f', f = f' + 1 := ⟨f - 1, by omega⟩
      rw [unquoteBody_tok _ _ hu, hc n]
      have hdl : (List.drop (appendStep b t).2 (b :: t)).length ≤ n := by
        rw [List.length_drop]
        simp only [List.length_cons] at hl ⊢
        omega
      rw [ih _ f' hdl (by omega)]
      simp

theorem coerce_valid (fuel : Nat) : ∀ (src : GoString),
    validUTF8Aux fuel src = true → coerceUTF8Aux fuel src = src := by
  induction fuel with
  | zero =>
    intro src h
    cases src with
    | nil => rfl
    | cons b t => simp [validUTF8Aux] at h
  | succ n ih =>
    intro src h
    cases src with
    | nil => rfl
    | cons b t =>
      rw [validUTF8Aux] at h
      rw [coerceUTF8Aux]
      by_cases hv : (decodeRune (b :: t)).1 = RuneError ∧ (decodeRune (b :: t)).2 = 1
      · simp [hv] at h
      · simp only [hv, if_false] at h ⊢
        rw [ih _ h, List.take_append_drop]

theorem skipSpace_cons (c : Byte) (t : GoString) (h : isSpace c = false) :
    skipSpace (c :: t) = c :: t := by
  simp [skipSpace, h]

theorem scanValue_string (fuel depth : Nat) (X lit rest : GoString)
    (h : scanString X = some (lit, rest)) :
    scanValue (fuel + 1) depth (0x22 :: X) = some (⟨.string, lit, []⟩, rest) := by
  rw [scanValue, skipSpace_cons _ _ (by decide)]
  have h1 : ¬ ((0x22 : Byte).val = 0x7B) := by decide
  have h2 : ¬ ((0x22 : Byte).val = 0x5B) := by decide
  have h3 : (0x22 : Byte).val = 0x22 := by decide
  simp only [h1, h2, h3, if_false, if_true, h, Option.map_some']
  simp

theorem scanMembers_single (fuel depth : Nat) (X key lit Y : GoString)
    (hk : scanString X = some (key, 0x3A :: 0x22 :: Y))
    (hv : scanString Y = some (lit, [0x7D])) :
    scanMembers (fuel + 2) depth (0x22 :: X) = some ([(key, ⟨.string, lit⟩)], []) := by
  rw [scanMembers, skipSpace_cons _ _ (by decide)]
  have h3 : (0x22 : Byte).val = 0x22 := by decide
  have h4 : (0x3A : Byte).val = 0x3A := by decide
  have h5 : ¬ ((0x7D : Byte).val = 0x2C) := by decide
  have h6 : (0x7D : Byte).val = 0x7D := by decide
  simp only [h3, if_true, hk, skipSpace_cons (0x3A : Byte) _ (by decide), h4,
    scanValue_string fuel depth Y lit [0x7D] hv, skipSpace_cons (0x7D : Byte) _ (by decide),
    h5, h6, if_false]
  simp

theorem scanValue_object (fuel : Nat) (X key lit Y : GoString)
    (hk : scanString X = some (key, 0x3A :: 0x22 :: Y))
    (hv : scanString Y = some (lit, [0x7D])) :
    scanValue (fuel + 3) 0 (0x7B :: 0x22 :: X)
      = some (⟨.object, [], [(key, ⟨.string, lit⟩)]⟩, []) := by
  rw [scanValue, skipSpace_cons _ _ (by decide)]
  have h1 : (0x7B : Byte).val = 0x7B := by decide
  have h2 : ¬ (maxNestingDepth ≤ 0) := by decide
  have h3 : ¬ ((0x22 : Byte).val = 0x7D) := by decide
  simp only [h1, if_true, h2, if_false, skipSpace_cons (0x22 : Byte) _ (by decide), h3,
    scanMembers_single fuel 1 X key lit Y hk hv, Option.map_some']

theorem scanTok_plainList (pre : GoString)
    (h : ∀ b ∈ pre, 0x20 ≤ b.val ∧ b.val ≠ 0x22 ∧ b.val ≠ 0x5C) : ScanTok pre := by
  induction pre with
  | nil => exact scanTok_nil
  | cons b t ih =>
    have hb := h b (List.mem_cons_self _ _)
    have := scanTok_append [b] t (scanTok_plain b hb.1 hb.2.1 hb.2.2)
      (ih (fun x hx => h x (List.mem_cons_of_mem _ hx)))
    simpa using this

theorem jsonUnmarshal_jsonMarshal (src : GoString) :
    ∃ payload, jsonMarshal ⟨src⟩ = .ok payload ∧
      jsonUnmarshal payload ⟨[]⟩ = (⟨coerceUTF8 src⟩, none) := by
  refine ⟨_, rfl, ?_⟩
  have hpay : [0x7B] ++ str "\"video_url\":" ++ appendString src ++ [(0x7D : Byte)]
      = 0x7B :: 0x22 :: (str "video_url" ++ 0x22 :: 0x3A :: 0x22 ::
          (appendStringBody src.length src ++ 0x22 :: [0x7D])) := by
    have h1 : str "\"video_url\":" = 0x22 :: (str "video_url" ++ [0x22, 0x3A]) := by decide
    rw [h1]
    simp [appendString]
  have hv := scan_appendStringBody src.length src [0x7D]
  have hk : scanString (str "video_url" ++ 0x22 :: 0x3A :: 0x22 ::
      (appendStringBody src.length src ++ 0x22 :: [0x7D]))
      = some (str "video_url", 0x3A :: 0x22 ::
          (appendStringBody src.length src ++ 0x22 :: [0x7D])) := by
    have hp : ∀ b ∈ str "video_url", 0x20 ≤ b.val ∧ b.val ≠ 0x22 ∧ b.val ≠ 0x5C := by
      have hs : str "video_url" = [0x76, 0x69, 0x64, 0x65, 0x6F, 0x5F, 0x75, 0x72, 0x6C] := by
        decide
      rw [hs]
      intro b hb
      simp only [List.mem_cons, List.mem_singleton, List.not_mem_nil, or_false] at hb
      rcases hb with rfl | rfl | rfl | rfl | rfl | rfl | rfl | rfl | rfl <;> decide
    rw [scanTok_plainList (str "video_url") hp, scanString_quote]
    simp
  have hlen : ([0x7B] ++ str "\"video_url\":" ++ appendString src ++ [(0x7D : Byte)]).length + 1
      = (appendStringBody src.length src).length + 14 + 3 := by
    have hl : (str "video_url").length = 9 := rfl
    rw [hpay]
    simp only [List.length_cons, List.length_append, hl, List.length_nil]
    omega
  have hdoc : scanDocument ([0x7B] ++ str "\"video_url\":" ++ appendString src ++ [(0x7D : Byte)])
      = some ⟨.object, [], [(str "video_url", ⟨.string, appendStringBody src.length src⟩)]⟩ := by
    unfold scanDocument
    rw [hlen, hpay, scanValue_object _ _ _ _ _ hk hv]
    simp [skipSpace]
  have hu : unquote (appendStringBody src.length src) = some (coerceUTF8 src) :=
    unquote_appendStringBody src.length src (appendStringBody src.length src).length
      (le_refl _) (le_refl _)
  have hkey : unquote (str "video_url") = some (str "video_url") := by decide
  have hm : matchesField (str "video_url") = true := by decide
  simp only [jsonUnmarshal, hdoc, List.foldl_cons, List.foldl_nil, storeMember, hkey, hm,
    if_true, hu]

theorem probe_ok_request (w : World) (url : GoString) (trP : List Effect) (ctype : GoString)
    (hp : ProbeContentType w url = (trP, .ret (ctype, none))) : w.newRequestErr url = none := by
  cases h : w.newRequestErr url with
  | none => rfl
  | some e' => simp [ProbeContentType, h] at hp

/-! ## The claims -/

/-- C1: a request to `/big_task` whose `video_url` is missing or empty is answered
with status 400 and body "video_url required", and the handler returns with an
empty trace: `client.Enqueue` is not called. -/
theorem C1_empty_video_url_is_rejected (enqueue : Task → Except GoError TaskInfo)
    (query : Values) (h : query.Get (str "video_url") = []) :
    bigTaskHandler enqueue query = ([], httpError (str "video_url required") 400) ∧
    (bigTaskHandler enqueue query).2.status = 400 ∧
    enqueueCount (bigTaskHandler enqueue query).1 = 0 := by
  have : bigTaskHandler enqueue query = ([], httpError (str "video_url required") 400) := by
    simp [bigTaskHandler, h]
  rw [this]
  exact ⟨rfl, rfl, rfl⟩

theorem C1_empty_video_url_witness :
    (Values.Get [] (str "video_url") = [] ∧
      bigTaskHandler (fun _ => .ok ⟨str "id", str "default"⟩) [] =
        ([], httpError (str "video_url required") 400)) ∧
    (Values.Get [(str "video_url", [[]])] (str "video_url") = [] ∧
      enqueueCount (bigTaskHandler (fun _ => .ok ⟨str "id", str "default"⟩)
        [(str "video_url", [[]])]).1 = 0) :=
  ⟨⟨by decide, (C1_empty_video_url_is_rejected _ [] (by decide)).1⟩,
   ⟨by decide, (C1_empty_video_url_is_rejected _ [(str "video_url", [[]])] (by decide)).2.2⟩⟩

/-- C2: when the payload of a task does not decode (`json.Unmarshal` returns an
error), `HandleVideoCompressionTask` returns a non-nil error that wraps
`asynq.SkipRetry`, with an empty trace: nothing was probed, downloaded or
compressed. -/
theorem C2_malformed_payload_skips_retry (w : World) (t : Task)
    (h : (jsonUnmarshal t.payload ⟨[]⟩).2 ≠ none) :
    ∃ err, HandleVideoCompressionTask w t = ([], .ret (some err)) ∧
      errorsIs err SkipRetry = true ∧ classify err = .permanent := by
  cases hu : jsonUnmarshal t.payload ⟨[]⟩ with
  | mk p e =>
    cases e with
    | none => rw [hu] at h; exact absurd rfl h
    | some err =>
      refine ⟨.wrap (str "json.Unmarshal failed: " ++ err.message ++ str ": "
                              ++ SkipRetry.message) SkipRetry, ?_, ?_, ?_⟩
      · simp only [HandleVideoCompressionTask, hu]
      · simp [errorsIs, GoError.same, SkipRetry]
      · simp [classify, errorsIs, GoError.same, SkipRetry]

theorem C2_malformed_payload_witness :
    (jsonUnmarshal (str "video_url=x") ⟨[]⟩).2 ≠ none ∧
    ∃ err, HandleVideoCompressionTask (sampleWorld (.ok (okResponse (str "video/mp4")))
        (.ok (okResponse (str "video/mp4"))))
        (NewTask TypeVideoCompressor (str "video_url=x") []) = ([], .ret (some err)) ∧
      errorsIs err SkipRetry = true ∧ classify err = .permanent :=
  ⟨by decide, C2_malformed_payload_skips_retry _ (NewTask TypeVideoCompressor (str "video_url=x") [])
    (by decide)⟩

/-- C3 (evaluation at the failing input): for the task that
`NewVideoCompressionTask` builds for `http://example.com/v`, whose probed
content type is `text/html`, which is not a key of `allowedVideoTypes`, the handler returns the
error "unsupported content-type: text/html"; that error does not wrap
`asynq.SkipRetry`, so it is classified transient and the task is retried. -/
theorem C3_unsupported_type_not_permanent :
    NewVideoCompressionTask (str "http://example.com/v") = .ok sampleTask ∧
    allowedVideoTypes.lookup (str "text/html") = none ∧
    HandleVideoCompressionTask
        (sampleWorld (.ok (okResponse (str "text/html; charset=utf-8")))
          (.ok (okResponse (str "text/html; charset=utf-8")))) sampleTask
      = ([.log (str "process started for video : http://example.com/v"), .getwd,
          .httpDo (str "HEAD") (str "http://example.com/v")],
         .ret (some (.fresh (str "unsupported content-type: text/html")))) ∧
    errorsIs (.fresh (str "unsupported content-type: text/html")) SkipRetry = false ∧
    classify (.fresh (str "unsupported content-type: text/html")) = .transient := by
  refine ⟨rfl, ?_⟩
  decide

/-- C4: for every `src`, `NewVideoCompressionTask src` returns a task and a nil
error; the task has type "video:compress", `MaxRetry` 2, a timeout of 20 seconds
(in nanoseconds), no queue option, and so targets the queue "default". -/
theorem C4_new_task_options (src : GoString) :
    ∃ t, NewVideoCompressionTask src = .ok t ∧
      t.typename = str "video:compress" ∧
      t.maxRetry = some 2 ∧
      t.timeout = some (20 * 1000000000) ∧
      t.queueOption = none ∧
      t.queue = str "default" := by
  exact ⟨_, rfl, rfl, rfl, rfl, rfl, rfl⟩

/-- C5: the `/big_task` handler calls `client.Enqueue` at most once.  When
`video_url` is non-empty the task is created and pushed exactly once (the
calls are exactly that one task); when `video_url` is empty or task creation
fails nothing is pushed.  The reply is 202 "sent" exactly when that call
returned no error, 400 "video_url required" when `video_url` is empty, and 500
when task creation or the enqueue fails. -/
theorem C5_at_most_one_enqueue (enqueue : Task → Except GoError TaskInfo) (query : Values) :
    enqueueCount (bigTaskHandler enqueue query).1 ≤ 1 ∧
    (enqueueCount (bigTaskHandler enqueue query).1 = 1 ↔
      query.Get (str "video_url") ≠ [] ∧
      ∃ t, NewVideoCompressionTask (query.Get (str "video_url")) = .ok t) ∧
    (query.Get (str "video_url") ≠ [] →
      ∃ t, NewVideoCompressionTask (query.Get (str "video_url")) = .ok t ∧
        enqueueCount (bigTaskHandler enqueue query).1 = 1 ∧
        enqueueCalls (bigTaskHandler enqueue query).1 = [t] ∧
        (bigTaskHandler enqueue query).1.head? = some (.enqueue t)) ∧
    (query.Get (str "video_url") = [] ∨
      (∃ e, NewVideoCompressionTask (query.Get (str "video_url")) = .error e) →
      enqueueCount (bigTaskHandler enqueue query).1 = 0 ∧
      enqueueCalls (bigTaskHandler enqueue query).1 = []) ∧
    ((bigTaskHandler enqueue query).2 = ⟨202, str "sent"⟩ ↔
      query.Get (str "video_url") ≠ [] ∧
      ∃ t info, NewVideoCompressionTask (query.Get (str "video_url")) = .ok t ∧
        enqueue t = .ok info ∧ enqueueCalls (bigTaskHandler enqueue query).1 = [t]) ∧
    (query.Get (str "video_url") = [] →
      (bigTaskHandler enqueue query).2 = httpError (str "video_url required") 400 ∧
      (bigTaskHandler enqueue query).2.status = 400) ∧
    (query.Get (str "video_url") ≠ [] →
      ((∃ e, NewVideoCompressionTask (query.Get (str "video_url")) = .error e) ∨
       (∃ t e, NewVideoCompressionTask (query.Get (str "video_url")) = .ok t ∧
          enqueue t = .error e)) →
      (bigTaskHandler enqueue query).2.status = 500) := by
  by_cases hv : query.Get (str "video_url") = []
  · simp [bigTaskHandler, hv, enqueueCount, enqueueCalls, httpError]
  · cases hn : NewVideoCompressionTask (query.Get (str "video_url")) with
    | error e => simp [NewVideoCompressionTask, jsonMarshal] at hn
    | ok t =>
      cases he : enqueue t with
      | error e => simp [bigTaskHandler, hv, hn, he, enqueueCount, enqueueCalls, httpError]
      | ok info => simp [bigTaskHandler, hv, hn, he, enqueueCount, enqueueCalls, httpError]

/-- C6: for a task whose payload decodes, each of the following makes
`HandleVideoCompressionTask` return a non-nil error that does not wrap
`asynq.SkipRetry` (given that the underlying error itself does not), so the
failure is classified transient: a network error while probing; a network error
of the download request; a download response whose status is not 200; a
network error while the response body is copied (`io.Copy`); and, more
generally, any error `Download` returns that does not wrap `SkipRetry`
(which includes a failure to create the file). -/
theorem C6_transient_failures_stay_retryable (w : World) (t : Task) (p : VideoPayload) (cwd : GoString)
    (hdec : jsonUnmarshal t.payload ⟨[]⟩ = (p, none)) (hwd : w.getwd = .ok cwd) :
    (∀ e, w.newRequestErr p.VideoURL = none →
        w.doRequest (str "HEAD") p.VideoURL = .error e → errorsIs e SkipRetry = false →
        ∃ err, (HandleVideoCompressionTask w t).2 = .ret (some err) ∧
          errorsIs err SkipRetry = false ∧ classify err = .transient) ∧
    (∀ trP ctype ext e, ProbeContentType w p.VideoURL = (trP, .ret (ctype, none)) →
        allowedVideoTypes.lookup ctype = some ext →
        w.doRequest (str "GET") p.VideoURL = .error e → errorsIs e SkipRetry = false →
        ∃ err, (HandleVideoCompressionTask w t).2 = .ret (some err) ∧
          errorsIs err SkipRetry = false ∧ classify err = .transient) ∧
    (∀ trP ctype ext resp, ProbeContentType w p.VideoURL = (trP, .ret (ctype, none)) →
        allowedVideoTypes.lookup ctype = some ext →
        w.doRequest (str "GET") p.VideoURL = .ok resp → resp.StatusCode ≠ 200 →
        ∃ err, (HandleVideoCompressionTask w t).2 = .ret (some err) ∧
          errorsIs err SkipRetry = false ∧ classify err = .transient) ∧
    (∀ trP ctype ext resp e, ProbeContentType w p.VideoURL = (trP, .ret (ctype, none)) →
        allowedVideoTypes.lookup ctype = some ext →
        w.doRequest (str "GET") p.VideoURL = .ok resp → resp.StatusCode = 200 →
        w.create (w.join [cwd, str "video", str "downloads", str "input" ++ ext]) = none →
        w.copy (w.join [cwd, str "video", str "downloads", str "input" ++ ext]) = some e →
        errorsIs e SkipRetry = false →
        ∃ err, (HandleVideoCompressionTask w t).2 = .ret (some err) ∧
          errorsIs err SkipRetry = false ∧ classify err = .transient) ∧
    (∀ trP ctype ext trD e, ProbeContentType w p.VideoURL = (trP, .ret (ctype, none)) →
        allowedVideoTypes.lookup ctype = some ext →
        Download w p.VideoURL (w.join [cwd, str "video", str "downloads", str "input" ++ ext])
          = (trD, .ret (some e)) →
        errorsIs e SkipRetry = false →
        (HandleVideoCompressionTask w t).2
            = .ret (some (errorfW (str "failed to download video: ") e)) ∧
          errorsIs (errorfW (str "failed to download video: ") e) SkipRetry = false ∧
          classify (errorfW (str "failed to download video: ") e) = .transient) := by
  have hgen : ∀ trP ctype ext trD e, ProbeContentType w p.VideoURL = (trP, .ret (ctype, none)) →
      allowedVideoTypes.lookup ctype = some ext →
      Download w p.VideoURL (w.join [cwd, str "video", str "downloads", str "input" ++ ext])
        = (trD, .ret (some e)) →
      errorsIs e SkipRetry = false →
      (HandleVideoCompressionTask w t).2
          = .ret (some (errorfW (str "failed to download video: ") e)) ∧
        errorsIs (errorfW (str "failed to download video: ") e) SkipRetry = false ∧
        classify (errorfW (str "failed to download video: ") e) = .transient := by
    intro trP ctype ext trD e hp hl hd hne
    have hne' := errorfW_not_skip (str "failed to download video: ") e hne
    refine ⟨?_, hne', classify_transient _ hne'⟩
    simp only [HandleVideoCompressionTask, hdec, hwd, hp, hl, hd]
  refine ⟨?_, ?_, ?_, ?_, hgen⟩
  · intro e hreq hdo hne
    have hp : ProbeContentType w p.VideoURL
        = ([.httpDo (str "HEAD") p.VideoURL], .ret ([], some e)) := by
      simp [ProbeContentType, hreq, hdo]
    refine ⟨e, ?_, hne, classify_transient e hne⟩
    simp only [HandleVideoCompressionTask, hdec, hwd, hp]
  · intro trP ctype ext e hp hl hdo hne
    have hreq := probe_ok_request w _ _ _ hp
    have hd : Download w p.VideoURL (w.join [cwd, str "video", str "downloads", str "input" ++ ext])
        = ([.httpDo (str "GET") p.VideoURL], .ret (some e)) := by
      simp [Download, hreq, hdo]
    exact ⟨_, hgen trP ctype ext _ e hp hl hd hne⟩
  · intro trP ctype ext resp hp hl hdo hst
    have hreq := probe_ok_request w _ _ _ hp
    have hd : Download w p.VideoURL (w.join [cwd, str "video", str "downloads", str "input" ++ ext])
        = ([.httpDo (str "GET") p.VideoURL],
           .ret (some (.fresh (str "bad status: " ++ resp.Status)))) := by
      simp [Download, hreq, hdo, hst]
    have hne : errorsIs (.fresh (str "bad status: " ++ resp.Status)) SkipRetry = false := by
      simp [errorsIs, GoError.same, SkipRetry]
    exact ⟨_, hgen trP ctype ext _ _ hp hl hd hne⟩
  · intro trP ctype ext resp e hp hl hdo hst hcr hcp hne
    have hreq := probe_ok_request w _ _ _ hp
    have hd : Download w p.VideoURL (w.join [cwd, str "video", str "downloads", str "input" ++ ext])
        = ([.httpDo (str "GET") p.VideoURL,
            .create (w.join [cwd, str "video", str "downloads", str "input" ++ ext]),
            .copy (w.join [cwd, str "video", str "downloads", str "input" ++ ext])],
           .ret (some e)) := by
      simp [Download, hreq, hdo, hst, hcr, hcp]
    exact ⟨_, hgen trP ctype ext _ e hp hl hd hne⟩

theorem C6_transient_failures_witness :
    (∃ err, (HandleVideoCompressionTask
        (sampleWorld (.error connectionRefused) (.error connectionRefused)) sampleTask).2
          = .ret (some err) ∧ errorsIs err SkipRetry = false ∧ classify err = .transient) ∧
    (∃ err, (HandleVideoCompressionTask
        (sampleWorld (.ok (okResponse (str "video/mp4"))) (.error connectionRefused)) sampleTask).2
          = .ret (some err) ∧ errorsIs err SkipRetry = false ∧ classify err = .transient) ∧
    (∃ err, (HandleVideoCompressionTask
        (sampleWorld (.ok (okResponse (str "video/mp4")))
          (.ok ⟨503, str "503 Service Unavailable", []⟩)) sampleTask).2
          = .ret (some err) ∧ errorsIs err SkipRetry = false ∧ classify err = .transient) ∧
    (∃ err, (HandleVideoCompressionTask
        (copyFailWorld (.ok (okResponse (str "video/mp4")))
          (.ok (okResponse (str "video/mp4"))) connectionReset) sampleTask).2
          = .ret (some err) ∧ errorsIs err SkipRetry = false ∧ classify err = .transient) ∧
    (HandleVideoCompressionTask
        (createFailWorld (.ok (okResponse (str "video/mp4")))
          (.ok (okResponse (str "video/mp4"))) (.fresh (str "permission denied"))) sampleTask).2
      = .ret (some (errorfW (str "failed to download video: ")
          (.fresh (str "permission denied")))) :=
  ⟨(C6_transient_failures_stay_retryable
      (sampleWorld (.error connectionRefused) (.error connectionRefused)) sampleTask
      ⟨str "http://example.com/v"⟩ (str "/srv") (by decide) rfl).1
      connectionRefused rfl rfl (by decide),
   (C6_transient_failures_stay_retryable
      (sampleWorld (.ok (okResponse (str "video/mp4"))) (.error connectionRefused)) sampleTask
      ⟨str "http://example.com/v"⟩ (str "/srv") (by decide) rfl).2.1
      [.httpDo (str "HEAD") (str "http://example.com/v")] (str "video/mp4") (str ".mp4")
      connectionRefused (by decide) (by decide) rfl (by decide),
   (C6_transient_failures_stay_retryable
      (sampleWorld (.ok (okResponse (str "video/mp4")))
          (.ok ⟨503, str "503 Service Unavailable", []⟩)) sampleTask
      ⟨str "http://example.com/v"⟩ (str "/srv") (by decide) rfl).2.2.1
      [.httpDo (str "HEAD") (str "http://example.com/v")] (str "video/mp4") (str ".mp4")
      ⟨503, str "503 Service Unavailable", []⟩ (by decide) (by decide) rfl (by decide),
   (C6_transient_failures_stay_retryable
      (copyFailWorld (.ok (okResponse (str "video/mp4")))
          (.ok (okResponse (str "video/mp4"))) connectionReset) sampleTask
      ⟨str "http://example.com/v"⟩ (str "/srv") (by decide) rfl).2.2.2.1
      [.httpDo (str "HEAD") (str "http://example.com/v")] (str "video/mp4") (str ".mp4")
      (okResponse (str "video/mp4")) connectionReset (by decide) (by decide) rfl (by decide)
      rfl rfl (by decide),
   ((C6_transient_failures_stay_retryable
      (createFailWorld (.ok (okResponse (str "video/mp4")))
          (.ok (okResponse (str "video/mp4"))) (.fresh (str "permission denied"))) sampleTask
      ⟨str "http://example.com/v"⟩ (str "/srv") (by decide) rfl).2.2.2.2
      [.httpDo (str "HEAD") (str "http://example.com/v")] (str "video/mp4") (str ".mp4")
      [.httpDo (str "GET") (str "http://example.com/v"),
       .create (str "/srv/video/downloads/input.mp4")]
      (.fresh (str "permission denied")) (by decide) (by decide) (by decide) (by decide)).1⟩

/-- C7: for every `max_retries = r` and every sequence of lease and finish events, a
task is leased at most `r + 1` times (and `attempt` counts the leases); the
dispatch loop reaches a terminal state within `r + 1` rounds for every handler;
with a handler that always fails transiently the task is leased exactly
`r + 1` times and then dead-lettered; for the task of
`NewVideoCompressionTask` (`max_retries = 2`) that is 3 leases and
`attempt = 3`, and no later event leases it again. -/
theorem C7_lease_bound (r : Nat) (evs : List Event) (handler : Nat → HandlerResult) (src : GoString)
    (fuel : Nat) :
    ((enqueued r).run evs).leases ≤ r + 1 ∧
    ((enqueued r).run evs).attempt = ((enqueued r).run evs).leases ∧
    ((dispatch handler (r + 1) (enqueued r)).terminal = true ∧
      (dispatch handler (r + 1) (enqueued r)).leases ≤ r + 1) ∧
    dispatch (fun _ => .failure .transient) (r + 1 + fuel) (enqueued r)
      = ⟨r, r + 1, .deadLettered, r + 1⟩ ∧
    (∃ t, NewVideoCompressionTask src = .ok t ∧ t.maxRetry = some 2) ∧
    dispatch (fun _ => .failure .transient) (3 + fuel) (enqueued 2)
      = ⟨2, 3, .deadLettered, 3⟩ ∧
    (enqueued 2).run [.lease, .finish (.failure .transient), .lease,
        .finish (.failure .transient), .lease, .finish (.failure .transient)]
      = ⟨2, 3, .deadLettered, 3⟩ ∧
    SchedTask.run ⟨2, 3, .deadLettered, 3⟩ evs = ⟨2, 3, .deadLettered, 3⟩ := by
  have hinv := run_invariant evs (enqueued r) rfl (by intro _; simp [enqueued]) (by simp [enqueued])
  have hterm := dispatch_terminates handler (r + 1) (enqueued r) (by simp [enqueued])
    (by simp [enqueued]) (by intro _; omega) rfl
  refine ⟨?_, hinv.2.1, hterm, ?_, ⟨_, rfl, rfl⟩, ?_, by decide, run_terminal _ _ rfl⟩
  · have := hinv.2.2
    rw [hinv.2.1] at this
    exact this
  · exact dispatch_always_transient (r + 1 + fuel) r 0 (by omega) (by omega)
  · exact dispatch_always_transient (3 + fuel) 2 0 (by omega) (by omega)

/-- C8: the worker configuration has pool size 10 (at least 1), every queue weight
is at least 1, the weights are critical 6, default 3, low 1 with sum 10, the
shares are 6/10, 3/10 and 1/10, and no configured queue has share zero. -/
theorem C8_worker_configuration :
    workerConfig.Concurrency = 10 ∧ 1 ≤ workerConfig.Concurrency ∧
    (∀ q ∈ workerConfig.Queues, 1 ≤ q.2) ∧
    workerConfig.Queues = [("critical", 6), ("default", 3), ("low", 1)] ∧
    workerConfig.totalWeight = 10 ∧
    workerConfig.share "critical" = 6 / 10 ∧
    workerConfig.share "default" = 3 / 10 ∧
    workerConfig.share "low" = 1 / 10 ∧
    (∀ q ∈ workerConfig.Queues, 0 < workerConfig.share q.1) := by
  have hc : workerConfig.share "critical" = 6 / 10 := by
    simp [Config.share, Config.totalWeight, workerConfig, List.lookup]
  have hd : workerConfig.share "default" = 3 / 10 := by
    simp [Config.share, Config.totalWeight, workerConfig, List.lookup]
  have hl : workerConfig.share "low" = 1 / 10 := by
    simp [Config.share, Config.totalWeight, workerConfig, List.lookup]
  refine ⟨rfl, by decide, by decide, rfl, by decide, hc, hd, hl, ?_⟩
  intro q hq
  simp only [workerConfig, List.mem_cons, List.mem_singleton, List.not_mem_nil, or_false] at hq
  rcases hq with rfl | rfl | rfl
  · show 0 < workerConfig.share "critical"; rw [hc]; norm_num
  · show 0 < workerConfig.share "default"; rw [hd]; norm_num
  · show 0 < workerConfig.share "low"; rw [hl]; norm_num

/-- C9 as stated fails: for `src` the single byte `0xFF` (what the query
`video_url=%ff` gives), the payload of `NewVideoCompressionTask src` decodes
without error to the three bytes of U+FFFD, not to `src`; so the decoded
`VideoURL` is not `src` for every `src`. -/
theorem C9_invalid_utf8_not_preserved :
    (∃ t, NewVideoCompressionTask [0xFF] = .ok t ∧
      jsonUnmarshal t.payload ⟨[]⟩ = (⟨[0xEF, 0xBF, 0xBD]⟩, none) ∧
      (jsonUnmarshal t.payload ⟨[]⟩).1.VideoURL ≠ [0xFF]) ∧
    ¬ (∀ src t, NewVideoCompressionTask src = .ok t →
        (jsonUnmarshal t.payload ⟨[]⟩).1.VideoURL = src) := by
  have h : ∃ t, NewVideoCompressionTask [0xFF] = .ok t ∧
      jsonUnmarshal t.payload ⟨[]⟩ = (⟨[0xEF, 0xBF, 0xBD]⟩, none) ∧
      (jsonUnmarshal t.payload ⟨[]⟩).1.VideoURL ≠ [0xFF] := ⟨_, rfl, by decide, by decide⟩
  refine ⟨h, fun hall => ?_⟩
  obtain ⟨t, ht, _, hne⟩ := h
  exact hne (hall _ t ht)

/-- C9 (amended): for every `src`, decoding the payload of
`NewVideoCompressionTask src` as the handler does succeeds with a nil error and
yields `src` coerced to valid UTF-8 (each byte outside a valid sequence replaced
by U+FFFD), which is `src` itself whenever `src` is valid UTF-8; the handler
then goes past the malformed-payload branch: its trace starts with the log line
of the decoded URL. -/
theorem C9_payload_round_trip (src : GoString) (w : World) :
    ∃ t, NewVideoCompressionTask src = .ok t ∧
      jsonUnmarshal t.payload ⟨[]⟩ = (⟨coerceUTF8 src⟩, none) ∧
      (validUTF8 src = true → jsonUnmarshal t.payload ⟨[]⟩ = (⟨src⟩, none)) ∧
      (HandleVideoCompressionTask w t).1.head?
        = some (.log (str "process started for video : " ++ coerceUTF8 src)) := by
  obtain ⟨payload, hm, hu⟩ := jsonUnmarshal_jsonMarshal src
  refine ⟨NewTask TypeVideoCompressor payload [MaxRetry 2, Timeout (20 * Second)], ?_, hu, ?_, ?_⟩
  · simp only [NewVideoCompressionTask, hm]
  · intro hv
    have := coerce_valid src.length src hv
    simp only [NewTask, hu, coerceUTF8, this]
  · simp only [HandleVideoCompressionTask, NewTask, hu]
    cases w.getwd with
    | error e => rfl
    | ok cwd => 
      simp only []
      split <;> first | rfl | (split <;> first | rfl | (split <;> first | rfl | (split <;> rfl)))

theorem C9_payload_round_trip_witness :
    validUTF8 (str "http://example.com/v") = true ∧
    ∃ t, NewVideoCompressionTask (str "http://example.com/v") = .ok t ∧
      jsonUnmarshal t.payload ⟨[]⟩ = (⟨str "http://example.com/v"⟩, none) := by
  obtain ⟨t, h1, _, h3, _⟩ := C9_payload_round_trip (str "http://example.com/v")
    (sampleWorld (.error connectionRefused) (.error connectionRefused))
  exact ⟨by decide, t, h1, h3 (by decide)⟩

/-- C10: when the `HEAD` request succeeds, splitting the `Content-Type` header on
";" never yields an empty slice; for a non-empty header `ProbeContentType`
returns (no panic) a nil error and the part of the header before its first ";"
(all of it when there is none), which contains no ";"; for an empty or absent
header it returns the empty string and the error "missing Content-Type". -/
theorem C10_probe_content_type (w : World) (url : GoString) (resp : HttpResponse)
    (hreq : w.newRequestErr url = none)
    (hdo : w.doRequest (str "HEAD") url = .ok resp) :
    splitByte 0x3B (resp.Header.Get (str "Content-Type")) ≠ [] ∧
    (resp.Header.Get (str "Content-Type") ≠ [] →
      ∃ s rest, (ProbeContentType w url).2 = .ret (s, none) ∧
        resp.Header.Get (str "Content-Type") = s ++ rest ∧
        (rest = [] ∨ rest.head? = some 0x3B) ∧
        (0x3B : Byte) ∉ s) ∧
    (resp.Header.Get (str "Content-Type") = [] →
      (ProbeContentType w url).2 = .ret ([], some (.fresh (str "missing Content-Type")))) := by
  refine ⟨splitByte_ne_nil _ _, ?_, ?_⟩
  · intro hne
    refine ⟨(resp.Header.Get (str "Content-Type")).takeWhile (fun c => decide (c ≠ 0x3B)),
            (resp.Header.Get (str "Content-Type")).dropWhile (fun c => decide (c ≠ 0x3B)),
            ?_, (List.takeWhile_append_dropWhile _ _).symm, ?_, ?_⟩
    · simp only [ProbeContentType, hreq, hdo, hne, if_false, splitByte_head]
    · cases hd : (resp.Header.Get (str "Content-Type")).dropWhile (fun c => decide (c ≠ 0x3B)) with
      | nil => left; rfl
      | cons x xs =>
        right
        have := List.head_dropWhile_not (fun c => decide (c ≠ 0x3B))
          (resp.Header.Get (str "Content-Type")) (by rw [hd]; simp)
        simp only [hd, List.head_cons] at this
        simpa using this
    · intro hmem
      have := List.mem_takeWhile_imp hmem
      simp at this
  · intro he
    simp [ProbeContentType, hreq, hdo, he]

theorem C10_probe_content_type_witness :
    splitByte 0x3B (Values.Get (okResponse (str "text/html; charset=utf-8")).Header
      (str "Content-Type")) ≠ [] ∧
    (ProbeContentType (sampleWorld (.ok (okResponse (str "text/html; charset=utf-8")))
        (.error connectionRefused)) (str "http://example.com/v")).2
      = .ret (str "text/html", none) ∧
    (ProbeContentType (sampleWorld (.ok ⟨200, str "200 OK", []⟩)
        (.error connectionRefused)) (str "http://example.com/v")).2
      = .ret ([], some (.fresh (str "missing Content-Type"))) :=
  ⟨(C10_probe_content_type (sampleWorld (.ok (okResponse (str "text/html; charset=utf-8")))
        (.error connectionRefused)) (str "http://example.com/v") _ rfl rfl).1,
   by decide,
   (C10_probe_content_type (sampleWorld (.ok ⟨200, str "200 OK", []⟩) (.error connectionRefused))
      (str "http://example.com/v") _ rfl rfl).2.2 (by decide)⟩

end Stuffs
